import Mathlib

/-
Verification of the customer-support bot core (decision engine, Fact-Guard,
ticket store and escalation scheduler).

The development shallowly embeds the Python sources:
  * core_bot_logic.py   - text normalisation, intent classification, product
                          matching, the per-message decision builder;
  * core_ai.py          - the Fact-Guard (safe_ai_answer_or_fallback);
  * core_bot_telegram.py - the in-memory ticket store, operator claims and the
                          staged escalation pass.

Modelling conventions:
  * Python strings are `List Char`; Python `time.time()` instants are `Int`
    seconds (fractional parts never influence the compared thresholds other
    than by their order, which the integer model preserves for the scenarios
    stated here); wall-clock-of-day values are seconds after midnight.
  * `str.lower()` is modelled on the Latin and Cyrillic ranges that the
    downstream regular expressions can keep (A-Z, А-Я, Ё); on every other
    character it is the identity, as in CPython for the alphabets used by
    this program's keyword tables.
  * External collaborators (the SQLite settings/product store, the Telegram
    transport) are passed in as function arguments, mirroring section 6 of
    the design: `SettingsFn` for get_setting, `SearchFn` for search_products.
  * Side-effect-only calls (logging, HTTP sends) carry no data dependency in
    the source; sends are collected in output lists, loggers are dropped.
-/

namespace Bot

/-- Python `\s` (whitespace) on the ASCII range: space, tab, LF, CR, VT, FF. -/
def isSpaceChar (c : Char) : Bool :=
  decide (c.toNat = 32 ∨ c.toNat = 9 ∨ c.toNat = 10 ∨ c.toNat = 13 ∨
    c.toNat = 11 ∨ c.toNat = 12)

/-- The canonical alphabet kept by the regex `[a-zа-я0-9]` of
`core_bot_logic.normalize_text`: `a`-`z` (97-122), `а`-`я` (1072-1103,
which excludes `ё` = 1105) and the digits `0`-`9` (48-57). -/
def isCanonChar (c : Char) : Bool :=
  decide ((97 ≤ c.toNat ∧ c.toNat ≤ 122) ∨ (1072 ≤ c.toNat ∧ c.toNat ≤ 1103) ∨
    (48 ≤ c.toNat ∧ c.toNat ≤ 57))

/-- Python `\d` : the ASCII digits `0`-`9`. -/
def isDigitCh (c : Char) : Bool :=
  decide (48 ≤ c.toNat ∧ c.toNat ≤ 57)

/-- `str.lower()` on the ranges relevant to the program: `A`-`Z` (65-90),
`А`-`Я` (1040-1071) and `Ё` (1025 → `ё` 1105); identity elsewhere. -/
def lowerChar (c : Char) : Char :=
  if 65 ≤ c.toNat ∧ c.toNat ≤ 90 then Char.ofNat (c.toNat + 32)
  else if 1040 ≤ c.toNat ∧ c.toNat ≤ 1071 then Char.ofNat (c.toNat + 32)
  else if c.toNat = 1025 then Char.ofNat 1105
  else c

/-- The `s.replace("ё", "е")` substitution of `normalize_text` (1105 → 1077). -/
def yoChar (c : Char) : Char :=
  if c.toNat = 1105 then Char.ofNat 1077 else c

/-- One character of `re.sub(r"[^a-zа-я0-9\s]", " ", s)`: characters outside
the canonical alphabet and outside `\s` become a space.  The source compiles
the class with `re.IGNORECASE`, but the input is already lower-cased, so on
the modelled alphabet the flag is inert. -/
def scrubChar (c : Char) : Char :=
  if isCanonChar c || isSpaceChar c then c else ' '

/-- The per-character part of `normalize_text`: lower-case, substitute `ё`,
scrub non-alphanumerics to spaces. -/
def normChar (c : Char) : Char :=
  scrubChar (yoChar (lowerChar c))

/-- Splits a character list at `\s` runs, dropping empty pieces; `acc` holds
the current word reversed. -/
def splitWsAux : List Char → List Char → List (List Char)
  | [], acc => if acc = [] then [] else [acc.reverse]
  | c :: rest, acc =>
    if isSpaceChar c then
      if acc = [] then splitWsAux rest [] else acc.reverse :: splitWsAux rest []
    else splitWsAux rest (c :: acc)

def splitWs (s : List Char) : List (List Char) :=
  splitWsAux s []

/-- Joins words with single spaces (Python `" ".join`). -/
def joinWords : List (List Char) → List Char
  | [] => []
  | [w] => w
  | w :: ws => w ++ ' ' :: joinWords ws

/-- `core_bot_logic.normalize_text`: lower-case, `ё`→`е`, replace
non-`[a-zа-я0-9\s]` by spaces, then `re.sub(r"\s+", " ", s).strip()`.
Replacing every maximal `\s` run by one space and stripping the ends is the
same as joining the `\s`-separated non-empty words with single spaces, which
is how the last two steps are rendered here. -/
def normalize_text (s : List Char) : List Char :=
  joinWords (splitWs (s.map normChar))

/-- Python `s.split(" ")`: split at every single space, keeping empty pieces. -/
def splitOnSpaceAux : List Char → List Char → List (List Char)
  | [], acc => [acc.reverse]
  | c :: rest, acc =>
    if c = ' ' then acc.reverse :: splitOnSpaceAux rest []
    else splitOnSpaceAux rest (c :: acc)

def splitOnSpace (s : List Char) : List (List Char) :=
  splitOnSpaceAux s []

/-- `core_bot_logic.tokenize`: normalize, split on spaces, keep pieces of
length at least 2. -/
def tokenize (s : List Char) : List (List Char) :=
  (splitOnSpace (normalize_text s)).filter (fun p => 2 ≤ p.length)

-- ## Lemmas about the normaliser

theorem normChar_canon_id (c : Char) (h : isCanonChar c = true) : normChar c = c := by
  simp only [isCanonChar, decide_eq_true_eq] at h
  have h1 : ¬(65 ≤ c.toNat ∧ c.toNat ≤ 90) := by omega
  have h2 : ¬(1040 ≤ c.toNat ∧ c.toNat ≤ 1071) := by omega
  have h3 : ¬(c.toNat = 1025) := by omega
  have h4 : ¬(c.toNat = 1105) := by omega
  simp only [normChar, lowerChar, if_neg h1, if_neg h2, if_neg h3,
    yoChar, if_neg h4, scrubChar]
  simp [isCanonChar, h]

theorem normChar_space : normChar ' ' = ' ' := by decide

theorem normChar_out (c : Char) :
    isCanonChar (normChar c) = true ∨ isSpaceChar (normChar c) = true := by
  unfold normChar scrubChar
  by_cases h : (isCanonChar (yoChar (lowerChar c)) || isSpaceChar (yoChar (lowerChar c))) = true
  · rw [if_pos h]
    rcases Bool.or_eq_true_iff.mp h with h' | h'
    · exact Or.inl h'
    · exact Or.inr h'
  · rw [if_neg h]
    right; decide

theorem canon_not_space {c : Char} (h : isCanonChar c = true) : isSpaceChar c = false := by
  simp only [isCanonChar, decide_eq_true_eq] at h
  simp only [isSpaceChar, decide_eq_false_iff_not]
  omega

theorem splitWsAux_prop (s : List Char) :
    ∀ acc, (∀ c ∈ acc, isSpaceChar c = false) →
    ∀ w ∈ splitWsAux s acc, w ≠ [] ∧ ∀ c ∈ w, isSpaceChar c = false ∧ (c ∈ s ∨ c ∈ acc) := by
  induction s with
  | nil =>
    intro acc hacc w hw
    by_cases h : acc = []
    · simp [splitWsAux, h] at hw
    · simp only [splitWsAux, if_neg h, List.mem_singleton] at hw
      subst hw
      refine ⟨by simpa using h, fun c hc => ?_⟩
      rw [List.mem_reverse] at hc
      exact ⟨hacc c hc, Or.inr hc⟩
  | cons a s ih =>
    intro acc hacc w hw
    by_cases hsp : isSpaceChar a = true
    · by_cases h : acc = []
      · simp only [splitWsAux, if_pos hsp, if_pos h] at hw
        obtain ⟨hne, hall⟩ := ih [] (by simp) w hw
        exact ⟨hne, fun c hc => ⟨(hall c hc).1, by
          rcases (hall c hc).2 with h' | h'
          · exact Or.inl (List.mem_cons_of_mem _ h')
          · simp at h'⟩⟩
      · simp only [splitWsAux, if_pos hsp, if_neg h, List.mem_cons] at hw
        rcases hw with hw | hw
        · subst hw
          refine ⟨by simpa using h, fun c hc => ?_⟩
          rw [List.mem_reverse] at hc
          exact ⟨hacc c hc, Or.inr hc⟩
        · obtain ⟨hne, hall⟩ := ih [] (by simp) w hw
          exact ⟨hne, fun c hc => ⟨(hall c hc).1, by
            rcases (hall c hc).2 with h' | h'
            · exact Or.inl (List.mem_cons_of_mem _ h')
            · simp at h'⟩⟩
    · have hsp' : isSpaceChar a = false := by simpa using hsp
      simp only [splitWsAux, hsp', Bool.false_eq_true, if_false] at hw
      have hacc' : ∀ c ∈ a :: acc, isSpaceChar c = false := by
        intro c hc
        rcases List.mem_cons.mp hc with rfl | hc
        · exact hsp'
        · exact hacc c hc
      obtain ⟨hne, hall⟩ := ih (a :: acc) hacc' w hw
      refine ⟨hne, fun c hc => ⟨(hall c hc).1, ?_⟩⟩
      rcases (hall c hc).2 with h' | h'
      · exact Or.inl (List.mem_cons_of_mem _ h')
      · rcases List.mem_cons.mp h' with rfl | h'
        · exact Or.inl (List.mem_cons_self _ _)
        · exact Or.inr h'

theorem splitWsAux_word (w : List Char) :
    ∀ (rest acc : List Char), (∀ c ∈ w, isSpaceChar c = false) →
    splitWsAux (w ++ rest) acc = splitWsAux rest (w.reverse ++ acc) := by
  induction w with
  | nil => intro rest acc _; simp
  | cons a w ih =>
    intro rest acc hw
    have ha : isSpaceChar a = false := hw a (List.mem_cons_self _ _)
    simp only [List.cons_append, splitWsAux, ha, Bool.false_eq_true, if_false,
      List.append_eq]
    rw [ih rest (a :: acc) (fun c hc => hw c (List.mem_cons_of_mem _ hc))]
    simp

theorem splitWs_join (ws : List (List Char))
    (h : ∀ w ∈ ws, w ≠ [] ∧ ∀ c ∈ w, isSpaceChar c = false) :
    splitWs (joinWords ws) = ws := by
  induction ws with
  | nil => simp [joinWords, splitWs, splitWsAux]
  | cons w ws ih =>
    cases ws with
    | nil =>
      obtain ⟨hne, hall⟩ := h w (List.mem_cons_self _ _)
      show splitWsAux (joinWords [w]) [] = [w]
      have : joinWords [w] = w ++ [] := by simp [joinWords]
      rw [this, splitWsAux_word w [] [] hall]
      have : w.reverse ≠ [] := by simpa using hne
      simp [splitWsAux, this]
    | cons w2 ws2 =>
      obtain ⟨hne, hall⟩ := h w (List.mem_cons_self _ _)
      show splitWsAux (joinWords (w :: w2 :: ws2)) [] = w :: w2 :: ws2
      have hj : joinWords (w :: w2 :: ws2) = w ++ ' ' :: joinWords (w2 :: ws2) := rfl
      rw [hj, splitWsAux_word w _ [] hall]
      have hsp : isSpaceChar ' ' = true := by decide
      have hrev : ¬(w.reverse ++ [] : List Char) = [] := by simpa using hne
      simp only [splitWsAux, if_pos hsp, if_neg hrev]
      rw [List.append_nil, List.reverse_reverse]
      exact congrArg (w :: ·) (ih (fun u hu => h u (List.mem_cons_of_mem _ hu)))

theorem splitOnSpaceAux_word (w : List Char) :
    ∀ (rest acc : List Char), (∀ c ∈ w, c ≠ ' ') →
    splitOnSpaceAux (w ++ rest) acc = splitOnSpaceAux rest (w.reverse ++ acc) := by
  induction w with
  | nil => intro rest acc _; simp
  | cons a w ih =>
    intro rest acc hw
    have ha : a ≠ ' ' := hw a (List.mem_cons_self _ _)
    simp only [List.cons_append, splitOnSpaceAux, if_neg ha, List.append_eq]
    rw [ih rest (a :: acc) (fun c hc => hw c (List.mem_cons_of_mem _ hc))]
    simp

theorem splitOnSpace_join (ws : List (List Char)) (hne : ws ≠ [])
    (h : ∀ w ∈ ws, ∀ c ∈ w, c ≠ ' ') :
    splitOnSpace (joinWords ws) = ws := by
  induction ws with
  | nil => exact absurd rfl hne
  | cons w ws ih =>
    cases ws with
    | nil =>
      show splitOnSpaceAux (joinWords [w]) [] = [w]
      have hj : joinWords [w] = w ++ [] := by simp [joinWords]
      rw [hj, splitOnSpaceAux_word w [] [] (h w (List.mem_cons_self _ _))]
      simp [splitOnSpaceAux]
    | cons w2 ws2 =>
      show splitOnSpaceAux (joinWords (w :: w2 :: ws2)) [] = w :: w2 :: ws2
      have hj : joinWords (w :: w2 :: ws2) = w ++ ' ' :: joinWords (w2 :: ws2) := rfl
      rw [hj, splitOnSpaceAux_word w _ [] (h w (List.mem_cons_self _ _))]
      simp only [splitOnSpaceAux, if_pos rfl]
      rw [List.append_nil, List.reverse_reverse]
      exact congrArg (w :: ·)
        (ih (by simp) (fun u hu => h u (List.mem_cons_of_mem _ hu)))

theorem mem_joinWords (c : Char) :
    ∀ ws : List (List Char), c ∈ joinWords ws → (∃ w ∈ ws, c ∈ w) ∨ c = ' ' := by
  intro ws
  induction ws with
  | nil => intro h; simp [joinWords] at h
  | cons w ws ih =>
    cases ws with
    | nil =>
      intro h
      simp only [joinWords] at h
      exact Or.inl ⟨w, (List.mem_cons_self _ _), h⟩
    | cons w2 ws2 =>
      intro h
      have hj : joinWords (w :: w2 :: ws2) = w ++ ' ' :: joinWords (w2 :: ws2) := rfl
      rw [hj, List.mem_append] at h
      rcases h with h | h
      · exact Or.inl ⟨w, (List.mem_cons_self _ _), h⟩
      · rcases List.mem_cons.mp h with rfl | h
        · exact Or.inr rfl
        · rcases ih h with ⟨u, hu, hc⟩ | h
          · exact Or.inl ⟨u, List.mem_cons_of_mem _ hu, hc⟩
          · exact Or.inr h

/-- Every word produced by normalisation is non-empty and all-canonical. -/
theorem normalWords_good (s : List Char) :
    ∀ w ∈ splitWs (s.map normChar), w ≠ [] ∧ ∀ c ∈ w, isCanonChar c = true := by
  intro w hw
  obtain ⟨hne, hall⟩ := splitWsAux_prop (s.map normChar) [] (by simp) w hw
  refine ⟨hne, fun c hc => ?_⟩
  obtain ⟨hsp, hmem⟩ := hall c hc
  have hmem' : c ∈ s.map normChar := by
    rcases hmem with h | h
    · exact h
    · simp at h
  obtain ⟨d, _, rfl⟩ := List.mem_map.mp hmem'
  rcases normChar_out d with h | h
  · exact h
  · rw [h] at hsp; cases hsp

theorem map_normChar_fix (l : List Char) (h : ∀ c ∈ l, normChar c = c) :
    l.map normChar = l := by
  induction l with
  | nil => rfl
  | cons a l ih =>
    simp only [List.map_cons, h a (List.mem_cons_self _ _),
      ih (fun c hc => h c (List.mem_cons_of_mem _ hc))]

/-- Idempotence of the normaliser. -/
theorem normalize_text_idem (s : List Char) :
    normalize_text (normalize_text s) = normalize_text s := by
  have hgood := normalWords_good s
  set W := splitWs (s.map normChar) with hW
  show normalize_text (joinWords W) = joinWords W
  unfold normalize_text
  have hfix : (joinWords W).map normChar = joinWords W := by
    apply map_normChar_fix
    intro c hc
    rcases mem_joinWords c W hc with ⟨w, hw, hcw⟩ | rfl
    · exact normChar_canon_id c ((hgood w hw).2 c hcw)
    · exact normChar_space
  rw [hfix, splitWs_join W (fun w hw => ⟨(hgood w hw).1,
    fun c hc => canon_not_space ((hgood w hw).2 c hc)⟩)]

/-- Every token is at least two characters of the canonical alphabet. -/
theorem tokenize_sound (s : List Char) :
    ∀ t ∈ tokenize s, 2 ≤ t.length ∧ ∀ c ∈ t, isCanonChar c = true := by
  intro t ht
  rw [tokenize, List.mem_filter] at ht
  obtain ⟨hmem, hlen⟩ := ht
  have hlen' : 2 ≤ t.length := by simpa using hlen
  refine ⟨hlen', ?_⟩
  have hgood := normalWords_good s
  by_cases hW : splitWs (s.map normChar) = []
  · rw [normalize_text, hW] at hmem
    simp [joinWords, splitOnSpace, splitOnSpaceAux] at hmem
    subst hmem; simp at hlen'
  · rw [normalize_text,
      splitOnSpace_join _ hW (fun w hw c hc => by
        intro hceq
        have := canon_not_space ((hgood w hw).2 c hc)
        rw [hceq] at this
        exact absurd this (by decide))] at hmem
    exact (hgood t hmem).2

-- ## core_ai.py : Fact-Guard

/-- Python `str.strip()`: drop `\s` characters from both ends. -/
def stripL (s : List Char) : List Char :=
  ((s.dropWhile isSpaceChar).reverse.dropWhile isSpaceChar).reverse

/-- Python `str.lower()` on a whole string (see `lowerChar`). -/
def lowerL (s : List Char) : List Char :=
  s.map lowerChar

def listStartsWith : List Char → List Char → Bool
  | [], _ => true
  | _ :: _, [] => false
  | a :: as, b :: bs => a == b && listStartsWith as bs

/-- Python substring containment `needle in hay`. -/
def listHasSub (needle : List Char) : List Char → Bool
  | [] => needle.isEmpty
  | c :: rest => listStartsWith needle (c :: rest) || listHasSub needle rest

/-- Scanner state for `extract_numbers`: outside any match, inside the
integer part, just after a candidate separator (held in the state, not yet
part of the match), or inside the fractional part. -/
inductive NumSt where
  | out
  | intp
  | sep (p : Char)
  | frac
deriving DecidableEq

/-
`core_ai.extract_numbers` = `re.findall(r"\d+(?:[.,]\d+)?", text)`: the
non-overlapping, left-to-right maximal matches.  Rendered as a one-pass
state machine with the current match accumulated in reverse.  A separator
joins the match only when a digit follows it, exactly as the optional group
`(?:[.,]\d+)?` demands; when a match ends, scanning resumes at the first
unconsumed character, which is never a digit, so it cannot start a match
and is skipped.
-/
def exNumGo : List Char → NumSt → List Char → List (List Char)
  | [], .out, _ => []
  | [], .intp, acc => [acc.reverse]
  | [], .sep _, acc => [acc.reverse]
  | [], .frac, acc => [acc.reverse]
  | c :: rest, .out, _ =>
    if isDigitCh c then exNumGo rest .intp [c] else exNumGo rest .out []
  | c :: rest, .intp, acc =>
    if isDigitCh c then exNumGo rest .intp (c :: acc)
    else if c = '.' ∨ c = ',' then exNumGo rest (.sep c) acc
    else acc.reverse :: exNumGo rest .out []
  | c :: rest, .sep p, acc =>
    if isDigitCh c then exNumGo rest .frac (c :: p :: acc)
    else acc.reverse :: exNumGo rest .out []
  | c :: rest, .frac, acc =>
    if isDigitCh c then exNumGo rest .frac (c :: acc)
    else acc.reverse :: exNumGo rest .out []

def extract_numbers (s : List Char) : List (List Char) :=
  exNumGo s .out []

/-- The fixed hedging list of `safe_ai_answer_or_fallback`. -/
def bannedWords : List (List Char) :=
  ["возможно".toList, "примерно".toList, "скорее всего".toList]

/-- `core_ai.safe_ai_answer_or_fallback`: reject the candidate and return the
fallback when the candidate introduces a number absent from the facts, or
contains a banned hedging phrase, or is empty after trimming; otherwise
return the trimmed candidate. -/
def safe_ai_answer_or_fallback (ai_text facts_text fallback_text : List Char) :
    List Char :=
  if 0 < ((extract_numbers ai_text).filter
      (fun n => !((extract_numbers facts_text).contains n))).length then
    fallback_text
  else if bannedWords.any (fun w => listHasSub w (lowerL ai_text)) then
    fallback_text
  else if stripL ai_text = [] then fallback_text
  else stripL ai_text

-- ## core_bot_telegram.py : tickets, claims, escalation

/-- Python `str(n)` for an integer. -/
def intStr (i : Int) : List Char :=
  if i < 0 then '-' :: Nat.toDigits 10 i.natAbs else Nat.toDigits 10 i.natAbs

/-- The `Ticket` dataclass of core_bot_telegram.py.  Timestamps are `Int`
seconds (see the header); `stage` is the 0-4 escalation stage. -/
structure Ticket where
  ticket_id : List Char
  platform : List Char
  customer_chat_id : Int
  customer_text : List Char
  summary : List Char
  created_ts : Int
  claimed_by : Option Int := none
  last_ping_ts : Int := 0
  stage : Nat := 0
  resolved : Bool := false
deriving DecidableEq

/-- The three operator id lists returned by `_load_ops` ("main", "all",
"admin").  They are re-read from settings on every pass in the source; here
each pass receives them as an argument. -/
structure Rosters where
  main : List Int
  all : List Int
  admin : List Int
deriving DecidableEq

/-- `_bot_prefix`: prepend "Bot:\n" to non-blank text. -/
def bot_prefixed (text : List Char) : List Char :=
  let t := stripL text
  if t = [] then [] else "Bot:\n".toList ++ t

/-- The stage-4 final message sent directly to the customer. -/
def finalBusyText : List Char :=
  "Извините, сейчас оператор занят. Как освободится главный оператор, он вам напишет.".toList

/-- Python `list(set(a + b))` keeping first occurrences.  CPython leaves the
set order unspecified; no claim here depends on the order, only on the
membership, which this deterministic rendering preserves. -/
def dedupFirstAux : List Int → List Int → List Int
  | [], _ => []
  | x :: rest, seen =>
    if seen.contains x then dedupFirstAux rest seen
    else x :: dedupFirstAux rest (x :: seen)

def dedupFirst (l : List Int) : List Int :=
  dedupFirstAux l []

/-- `_ping_ticket_stage`'s sends: the summary to every target id.  (The
`last_ping_ts := now` update is folded into `escStep`'s results.) -/
def pingMsgs (targets : List Int) (msg : List Char) : List (Int × List Char) :=
  targets.map (fun cid => (cid, msg))

/-- One iteration of the `for t in tickets` body of `_process_escalations`,
acting on a single ticket: returns the updated ticket and the messages sent
(pairs of chat id and text).  Thresholds: stage 2 needs age ≥ 60 and 60s
since the last ping; stage 3 needs age ≥ 60+180 = 240 and 180s since the
last ping; stage 4 needs age ≥ 60+180+420 = 660; force-resolve at age
≥ 3600 with a one-time admin ping. -/
def escStep (o : Rosters) (now : Int) (t : Ticket) : Ticket × List (Int × List Char) :=
  if t.resolved = true then (t, [])
  else if t.claimed_by ≠ none then (t, [])
  else if t.stage = 0 ∧ t.last_ping_ts = 0 then
    if o.main = [] then ({ t with stage := 1 }, [])
    else ({ t with stage := 1, last_ping_ts := now }, pingMsgs o.main t.summary)
  else if t.stage = 1 ∧ 60 ≤ now - t.created_ts ∧ 60 ≤ now - t.last_ping_ts then
    if dedupFirst (o.main ++ o.all) = [] then ({ t with stage := 2 }, [])
    else ({ t with stage := 2, last_ping_ts := now },
      pingMsgs (dedupFirst (o.main ++ o.all)) t.summary)
  else if t.stage = 2 ∧ 240 ≤ now - t.created_ts ∧ 180 ≤ now - t.last_ping_ts then
    if dedupFirst (o.main ++ o.all) = [] then ({ t with stage := 3 }, [])
    else ({ t with stage := 3, last_ping_ts := now },
      pingMsgs (dedupFirst (o.main ++ o.all)) t.summary)
  else if t.stage = 3 ∧ 660 ≤ now - t.created_ts then
    ({ t with stage := 4 }, [(t.customer_chat_id, bot_prefixed finalBusyText)])
  else if 3600 ≤ now - t.created_ts then
    if o.admin = [] then ({ t with resolved := true }, [])
    else ({ t with resolved := true, last_ping_ts := now }, pingMsgs o.admin t.summary)
  else (t, [])

/-- The ticket store: the `self._tickets` dict as an insertion-ordered
association list from ticket id to ticket. -/
abbrev Store := List (List Char × Ticket)

/-- Python `dict[k] = v`: replace in place if the key exists, else append. -/
def dictInsert : Store → List Char → Ticket → Store
  | [], k, v => [(k, v)]
  | p :: rest, k, v =>
    if p.1 = k then (k, v) :: rest else p :: dictInsert rest k v

/-- First-match association lookup (`dict[k]`, keys are unique in a dict). -/
def lookupStore : Store → List Char → Option Ticket
  | [], _ => none
  | p :: rest, k => if p.1 = k then some p.2 else lookupStore rest k

/-- `dict.values()` in insertion order. -/
def vals (s : Store) : List Ticket :=
  s.map Prod.snd

/-- The ticket id `f"{int(time.time())}_{customer_chat_id}"`. -/
def mk_ticket_id (now : Int) (chat : Int) : List Char :=
  intStr now ++ '_' :: intStr chat

/-- `_create_ticket`: build a fresh stage-0 ticket and store it under its
time-and-chat-derived id. -/
def create_ticket (now : Int) (platform : List Char) (chat : Int)
    (text summary : List Char) (s : Store) : List Char × Store :=
  let tid := mk_ticket_id now chat
  (tid, dictInsert s tid
    { ticket_id := tid, platform := platform, customer_chat_id := chat,
      customer_text := text, summary := summary, created_ts := now,
      claimed_by := none, last_ping_ts := 0, stage := 0, resolved := false })

/-- Python's stable ascending sort by `created_ts`
(`open_tickets.sort(key=lambda x: x.created_ts)`). -/
def sortByCreated (l : List Ticket) : List Ticket :=
  l.insertionSort (fun a b => a.created_ts ≤ b.created_ts)

/-- In-place `t.claimed_by = operator` on the dict entry with the given id. -/
def setClaimed (i : List Char) (operatorId : Int) : Store → Store
  | [] => []
  | p :: rest =>
    if p.1 = i then (p.1, { p.2 with claimed_by := some operatorId }) :: rest
    else p :: setClaimed i operatorId rest

/-- The open-ticket filter of `_claim_oldest`:
`not t.resolved and t.claimed_by is None`. -/
def eligTicket (t : Ticket) : Bool :=
  !t.resolved && t.claimed_by.isNone

/-- `_claim_oldest`: pick the oldest unresolved unclaimed ticket, mark it
claimed by the operator and return it; `none` when no ticket is eligible. -/
def claim_oldest (operatorId : Int) (s : Store) : Option Ticket × Store :=
  match sortByCreated ((vals s).filter eligTicket) with
  | [] => (none, s)
  | t :: _ =>
    (some { t with claimed_by := some operatorId }, setClaimed t.ticket_id operatorId s)

/-- `_process_escalations`: one pass over the whole store (the per-ticket
mutations commute with the dict snapshot because each loop iteration touches
only its own ticket); sends are concatenated in iteration order. -/
def process_escalations (o : Rosters) (now : Int) : Store → Store × List (Int × List Char)
  | [] => ([], [])
  | p :: rest =>
    let r := escStep o now p.2
    let rr := process_escalations o now rest
    ((p.1, r.1) :: rr.1, r.2 ++ rr.2)

/-- Well-formedness of a reachable store: dict keys are unique and each entry
is stored under its ticket's own id. -/
def WFStore (s : Store) : Prop :=
  (s.map Prod.fst).Nodup ∧ ∀ p ∈ s, p.1 = p.2.ticket_id

-- ## Escalation-pass region lemmas

theorem escStep_skip (o : Rosters) (now : Int) (t : Ticket)
    (h : t.resolved = true ∨ t.claimed_by ≠ none) : escStep o now t = (t, []) := by
  rcases h with h | h
  · simp [escStep, h]
  · by_cases hr : t.resolved = true
    · simp [escStep, hr]
    · simp [escStep, hr, h]

theorem escStep_eq_stage0 (o : Rosters) (now : Int) (t : Ticket)
    (hr : t.resolved = false) (hc : t.claimed_by = none)
    (h0 : t.stage = 0) (hlp : t.last_ping_ts = 0) :
    escStep o now t =
      if o.main = [] then ({ t with stage := 1 }, [])
      else ({ t with stage := 1, last_ping_ts := now }, pingMsgs o.main t.summary) := by
  simp only [escStep]
  rw [if_neg (by simp [hr]), if_neg (by simp [hc]), if_pos ⟨h0, hlp⟩]

theorem escStep_eq_stage1 (o : Rosters) (now : Int) (t : Ticket)
    (hr : t.resolved = false) (hc : t.claimed_by = none)
    (h1 : t.stage = 1) (ha : 60 ≤ now - t.created_ts) (hb : 60 ≤ now - t.last_ping_ts) :
    escStep o now t =
      if dedupFirst (o.main ++ o.all) = [] then ({ t with stage := 2 }, [])
      else ({ t with stage := 2, last_ping_ts := now },
        pingMsgs (dedupFirst (o.main ++ o.all)) t.summary) := by
  simp only [escStep]
  rw [if_neg (by simp [hr]), if_neg (by simp [hc]), if_neg (by omega),
    if_pos ⟨h1, ha, hb⟩]

theorem escStep_eq_stage2 (o : Rosters) (now : Int) (t : Ticket)
    (hr : t.resolved = false) (hc : t.claimed_by = none)
    (h2 : t.stage = 2) (ha : 240 ≤ now - t.created_ts) (hb : 180 ≤ now - t.last_ping_ts) :
    escStep o now t =
      if dedupFirst (o.main ++ o.all) = [] then ({ t with stage := 3 }, [])
      else ({ t with stage := 3, last_ping_ts := now },
        pingMsgs (dedupFirst (o.main ++ o.all)) t.summary) := by
  simp only [escStep]
  rw [if_neg (by simp [hr]), if_neg (by simp [hc]), if_neg (by omega),
    if_neg (by omega), if_pos ⟨h2, ha, hb⟩]

theorem escStep_eq_stage3 (o : Rosters) (now : Int) (t : Ticket)
    (hr : t.resolved = false) (hc : t.claimed_by = none)
    (h3 : t.stage = 3) (ha : 660 ≤ now - t.created_ts) :
    escStep o now t = ({ t with stage := 4 }, [(t.customer_chat_id, bot_prefixed finalBusyText)]) := by
  simp only [escStep]
  rw [if_neg (by simp [hr]), if_neg (by simp [hc]), if_neg (by omega),
    if_neg (by omega), if_neg (by omega), if_pos ⟨h3, ha⟩]

theorem escStep_eq_force (o : Rosters) (now : Int) (t : Ticket)
    (hr : t.resolved = false) (hc : t.claimed_by = none)
    (g0 : ¬(t.stage = 0 ∧ t.last_ping_ts = 0))
    (g1 : ¬(t.stage = 1 ∧ 60 ≤ now - t.created_ts ∧ 60 ≤ now - t.last_ping_ts))
    (g2 : ¬(t.stage = 2 ∧ 240 ≤ now - t.created_ts ∧ 180 ≤ now - t.last_ping_ts))
    (g3 : ¬(t.stage = 3 ∧ 660 ≤ now - t.created_ts))
    (hf : 3600 ≤ now - t.created_ts) :
    escStep o now t =
      if o.admin = [] then ({ t with resolved := true }, [])
      else ({ t with resolved := true, last_ping_ts := now }, pingMsgs o.admin t.summary) := by
  simp only [escStep]
  rw [if_neg (by simp [hr]), if_neg (by simp [hc]), if_neg g0, if_neg g1, if_neg g2,
    if_neg g3, if_pos hf]

theorem escStep_eq_idle (o : Rosters) (now : Int) (t : Ticket)
    (hr : t.resolved = false) (hc : t.claimed_by = none)
    (g0 : ¬(t.stage = 0 ∧ t.last_ping_ts = 0))
    (g1 : ¬(t.stage = 1 ∧ 60 ≤ now - t.created_ts ∧ 60 ≤ now - t.last_ping_ts))
    (g2 : ¬(t.stage = 2 ∧ 240 ≤ now - t.created_ts ∧ 180 ≤ now - t.last_ping_ts))
    (g3 : ¬(t.stage = 3 ∧ 660 ≤ now - t.created_ts))
    (hf : ¬3600 ≤ now - t.created_ts) :
    escStep o now t = (t, []) := by
  simp only [escStep]
  rw [if_neg (by simp [hr]), if_neg (by simp [hc]), if_neg g0, if_neg g1, if_neg g2,
    if_neg g3, if_neg hf]

/-- C1 (amended).  For an unresolved, unclaimed ticket, one escalation pass
advances it to stage 1 immediately after creation; to stage 2 exactly when
age ≥ 60s and ≥ 60s passed since the last notification; to stage 3 exactly
when age ≥ 240s and ≥ 180s since the last notification; to stage 4 (a
message sent directly to the customer, not to operators) exactly when age
≥ 660s; and it is force-resolved (with the admin alert as its only sends)
exactly when its age is ≥ 3600s and no stage transition fires in the same
pass — a due stage transition takes precedence, and the force-resolve then
happens on a later pass. -/
theorem C1_escalation_schedule (o : Rosters) (now : Int) (t : Ticket)
    (hr : t.resolved = false) (hc : t.claimed_by = none) :
    (t.stage = 0 → t.last_ping_ts = 0 →
       (escStep o now t).1.stage = 1 ∧ (escStep o now t).1.resolved = false) ∧
    (t.stage = 1 →
       ((escStep o now t).1.stage = 2 ↔
         60 ≤ now - t.created_ts ∧ 60 ≤ now - t.last_ping_ts)) ∧
    (t.stage = 2 →
       ((escStep o now t).1.stage = 3 ↔
         240 ≤ now - t.created_ts ∧ 180 ≤ now - t.last_ping_ts)) ∧
    (t.stage = 3 → ((escStep o now t).1.stage = 4 ↔ 660 ≤ now - t.created_ts)) ∧
    (t.stage = 3 → 660 ≤ now - t.created_ts →
       (escStep o now t).2 = [(t.customer_chat_id, bot_prefixed finalBusyText)]) ∧
    ((escStep o now t).1.resolved = true ↔
       3600 ≤ now - t.created_ts ∧ (escStep o now t).1.stage = t.stage) ∧
    ((escStep o now t).1.resolved = true →
       (escStep o now t).2 = pingMsgs o.admin t.summary) := by
  have res0 : ∀ (h0 : t.stage = 0) (hlp : t.last_ping_ts = 0),
      (escStep o now t).1.stage = 1 ∧ (escStep o now t).1.resolved = false := by
    intro h0 hlp
    rw [escStep_eq_stage0 o now t hr hc h0 hlp]
    by_cases hm : o.main = [] <;> simp [hm, hr]
  refine ⟨res0, ?_, ?_, ?_, ?_, ?_⟩
  · -- stage 1 ↔
    intro h1
    constructor
    · intro hs
      by_contra hnot
      rw [Classical.not_and_iff_or_not_not] at hnot
      have g0 : ¬(t.stage = 0 ∧ t.last_ping_ts = 0) := by omega
      have g1 : ¬(t.stage = 1 ∧ 60 ≤ now - t.created_ts ∧ 60 ≤ now - t.last_ping_ts) := by
        rintro ⟨_, hx, hy⟩; rcases hnot with h | h <;> omega
      have g2 : ¬(t.stage = 2 ∧ 240 ≤ now - t.created_ts ∧ 180 ≤ now - t.last_ping_ts) := by omega
      have g3 : ¬(t.stage = 3 ∧ 660 ≤ now - t.created_ts) := by omega
      by_cases hf : 3600 ≤ now - t.created_ts
      · rw [escStep_eq_force o now t hr hc g0 g1 g2 g3 hf] at hs
        by_cases hadm : o.admin = [] <;> simp [hadm] at hs <;> omega
      · rw [escStep_eq_idle o now t hr hc g0 g1 g2 g3 hf] at hs
        simp at hs
        omega
    · rintro ⟨ha, hb⟩
      rw [escStep_eq_stage1 o now t hr hc h1 ha hb]
      by_cases hd : dedupFirst (o.main ++ o.all) = [] <;> simp [hd]
  · -- stage 2 ↔
    intro h2
    constructor
    · intro hs
      by_contra hnot
      rw [Classical.not_and_iff_or_not_not] at hnot
      have g0 : ¬(t.stage = 0 ∧ t.last_ping_ts = 0) := by omega
      have g1 : ¬(t.stage = 1 ∧ 60 ≤ now - t.created_ts ∧ 60 ≤ now - t.last_ping_ts) := by omega
      have g2 : ¬(t.stage = 2 ∧ 240 ≤ now - t.created_ts ∧ 180 ≤ now - t.last_ping_ts) := by
        rintro ⟨_, hx, hy⟩; rcases hnot with h | h <;> omega
      have g3 : ¬(t.stage = 3 ∧ 660 ≤ now - t.created_ts) := by omega
      by_cases hf : 3600 ≤ now - t.created_ts
      · rw [escStep_eq_force o now t hr hc g0 g1 g2 g3 hf] at hs
        by_cases hadm : o.admin = [] <;> simp [hadm] at hs <;> omega
      · rw [escStep_eq_idle o now t hr hc g0 g1 g2 g3 hf] at hs
        simp at hs
        omega
    · rintro ⟨ha, hb⟩
      rw [escStep_eq_stage2 o now t hr hc h2 ha hb]
      by_cases hd : dedupFirst (o.main ++ o.all) = [] <;> simp [hd]
  · -- stage 3 ↔
    intro h3
    constructor
    · intro hs
      by_contra hnot
      have g0 : ¬(t.stage = 0 ∧ t.last_ping_ts = 0) := by omega
      have g1 : ¬(t.stage = 1 ∧ 60 ≤ now - t.created_ts ∧ 60 ≤ now - t.last_ping_ts) := by omega
      have g2 : ¬(t.stage = 2 ∧ 240 ≤ now - t.created_ts ∧ 180 ≤ now - t.last_ping_ts) := by omega
      have g3 : ¬(t.stage = 3 ∧ 660 ≤ now - t.created_ts) := by
        rintro ⟨_, hx⟩; exact hnot hx
      by_cases hf : 3600 ≤ now - t.created_ts
      · rw [escStep_eq_force o now t hr hc g0 g1 g2 g3 hf] at hs
        by_cases hadm : o.admin = [] <;> simp [hadm] at hs <;> omega
      · rw [escStep_eq_idle o now t hr hc g0 g1 g2 g3 hf] at hs
        simp at hs
        omega
    · intro ha
      rw [escStep_eq_stage3 o now t hr hc h3 ha]
  · -- stage 3 customer message
    intro h3 ha
    rw [escStep_eq_stage3 o now t hr hc h3 ha]
  · -- force-resolve characterisation and the admin alert
    by_cases h0 : t.stage = 0 ∧ t.last_ping_ts = 0
    · have := res0 h0.1 h0.2
      constructor
      · constructor
        · intro hs; rw [this.2] at hs; cases hs
        · rintro ⟨_, hst⟩; rw [this.1, h0.1] at hst; cases hst
      · intro hs; rw [this.2] at hs; cases hs
    · by_cases h1 : t.stage = 1 ∧ 60 ≤ now - t.created_ts ∧ 60 ≤ now - t.last_ping_ts
      · rw [escStep_eq_stage1 o now t hr hc h1.1 h1.2.1 h1.2.2]
        by_cases hd : dedupFirst (o.main ++ o.all) = [] <;> simp [hd, hr] <;> omega
      · by_cases h2 : t.stage = 2 ∧ 240 ≤ now - t.created_ts ∧ 180 ≤ now - t.last_ping_ts
        · rw [escStep_eq_stage2 o now t hr hc h2.1 h2.2.1 h2.2.2]
          by_cases hd : dedupFirst (o.main ++ o.all) = [] <;> simp [hd, hr] <;> omega
        · by_cases h3 : t.stage = 3 ∧ 660 ≤ now - t.created_ts
          · rw [escStep_eq_stage3 o now t hr hc h3.1 h3.2]
            simp [hr]; omega
          · by_cases hf : 3600 ≤ now - t.created_ts
            · rw [escStep_eq_force o now t hr hc h0 h1 h2 h3 hf]
              by_cases hadm : o.admin = [] <;> simp [hadm, hf, pingMsgs]
            · rw [escStep_eq_idle o now t hr hc h0 h1 h2 h3 hf]
              simp [hr, hf]

/-- C1, counterexample to the claim as stated: a freshly created ticket whose
age is already ≥ 3600s is not force-resolved by the pass that reaches it —
the stage-0 transition fires instead, so the pass leaves it unresolved at
stage 1. -/
theorem C1_counterexample :
    (Ticket.mk ("0_1".toList) ("telegram".toList) 1 ("q".toList) ("s".toList)
        0 none 0 0 false).resolved = false ∧
    (Ticket.mk ("0_1".toList) ("telegram".toList) 1 ("q".toList) ("s".toList)
        0 none 0 0 false).claimed_by = none ∧
    3600 ≤ (3600 : Int) -
      (Ticket.mk ("0_1".toList) ("telegram".toList) 1 ("q".toList) ("s".toList)
        0 none 0 0 false).created_ts ∧
    (escStep (Rosters.mk [7] [8] [9]) 3600
      (Ticket.mk ("0_1".toList) ("telegram".toList) 1 ("q".toList) ("s".toList)
        0 none 0 0 false)).1.resolved = false ∧
    (escStep (Rosters.mk [7] [8] [9]) 3600
      (Ticket.mk ("0_1".toList) ("telegram".toList) 1 ("q".toList) ("s".toList)
        0 none 0 0 false)).1.stage = 1 := by
  decide

/-- C1 witness: the amended schedule evaluated on a concrete fresh ticket. -/
theorem C1_escalation_schedule_witness :
    (escStep (Rosters.mk [7] [8] [9]) 0
      (Ticket.mk ("0_1".toList) ("telegram".toList) 1 ("q".toList) ("s".toList)
        0 none 0 0 false)).1.stage = 1 ∧
    (escStep (Rosters.mk [7] [8] [9]) 0
      (Ticket.mk ("0_1".toList) ("telegram".toList) 1 ("q".toList) ("s".toList)
        0 none 0 0 false)).1.resolved = false :=
  (C1_escalation_schedule (Rosters.mk [7] [8] [9]) 0
    (Ticket.mk ("0_1".toList) ("telegram".toList) 1 ("q".toList) ("s".toList)
      0 none 0 0 false) rfl rfl).1 rfl rfl

/-- C5.  When the roster subset targeted by a due stage transition is empty,
the pass sends no notification but still advances the stage.  Each
transition needs only the emptiness of its own targeted subset: `main` for
stage 0→1 (the branch never reads `all`), and `main ∪ all` (empty exactly
when both lists are) for 1→2 and 2→3. -/
theorem C5_empty_roster_advances (o : Rosters) (now : Int) (t : Ticket)
    (hr : t.resolved = false) (hc : t.claimed_by = none) :
    (t.stage = 0 → t.last_ping_ts = 0 → o.main = [] →
       escStep o now t = ({ t with stage := 1 }, [])) ∧
    (t.stage = 1 → 60 ≤ now - t.created_ts → 60 ≤ now - t.last_ping_ts →
       o.main = [] → o.all = [] →
       escStep o now t = ({ t with stage := 2 }, [])) ∧
    (t.stage = 2 → 240 ≤ now - t.created_ts → 180 ≤ now - t.last_ping_ts →
       o.main = [] → o.all = [] →
       escStep o now t = ({ t with stage := 3 }, [])) := by
  refine ⟨?_, ?_, ?_⟩
  · intro h0 hlp hm
    rw [escStep_eq_stage0 o now t hr hc h0 hlp, if_pos hm]
  · intro h1 hx hy hm ha
    have hd : dedupFirst (o.main ++ o.all) = [] := by
      rw [hm, ha]; rfl
    rw [escStep_eq_stage1 o now t hr hc h1 hx hy, if_pos hd]
  · intro h2 hx hy hm ha
    have hd : dedupFirst (o.main ++ o.all) = [] := by
      rw [hm, ha]; rfl
    rw [escStep_eq_stage2 o now t hr hc h2 hx hy, if_pos hd]

/-- C5 witness: a due stage-0→1 transition with an empty `main` roster but a
non-empty `all` roster advances the stage silently on a concrete ticket. -/
theorem C5_empty_roster_advances_witness :
    escStep (Rosters.mk [] [8] [9]) 100
      (Ticket.mk ("0_1".toList) ("telegram".toList) 1 ("q".toList) ("s".toList)
        0 none 0 0 false) =
    ({ Ticket.mk ("0_1".toList) ("telegram".toList) 1 ("q".toList) ("s".toList)
        0 none 0 0 false with stage := 1 }, []) :=
  (C5_empty_roster_advances (Rosters.mk [] [8] [9]) 100
    (Ticket.mk ("0_1".toList) ("telegram".toList) 1 ("q".toList) ("s".toList)
      0 none 0 0 false) rfl rfl).1 rfl rfl rfl

/-- C4.  The ticket id is `f"{int(time.time())}_{chat_id}"`: two creations in
the same wall-clock second for the same conversation produce the same id,
and the second `dict` insert overwrites the first ticket, so the store holds
only one ticket afterwards — refuting fresh, globally unique ids. -/
theorem C4_id_collision :
    (create_ticket 1000 ("telegram".toList) 5 ("q1".toList) ("s1".toList) []).1 =
      (create_ticket 1000 ("telegram".toList) 5 ("q2".toList) ("s2".toList)
        (create_ticket 1000 ("telegram".toList) 5 ("q1".toList) ("s1".toList) []).2).1 ∧
    ((create_ticket 1000 ("telegram".toList) 5 ("q2".toList) ("s2".toList)
        (create_ticket 1000 ("telegram".toList) 5 ("q1".toList) ("s1".toList) []).2).2).length = 1 := by
  decide

-- ## Claim-operation lemmas

theorem sortByCreated_perm (l : List Ticket) : List.Perm (sortByCreated l) l :=
  List.perm_insertionSort _ l

theorem sortByCreated_sorted (l : List Ticket) :
    List.Sorted (fun a b => a.created_ts ≤ b.created_ts) (sortByCreated l) := by
  haveI : IsTotal Ticket (fun a b => a.created_ts ≤ b.created_ts) :=
    ⟨fun a b => le_total _ _⟩
  haveI : IsTrans Ticket (fun a b => a.created_ts ≤ b.created_ts) :=
    ⟨fun a b c hab hbc => le_trans hab hbc⟩
  exact List.sorted_insertionSort _ l

theorem lookup_setClaimed_self (s : Store) (i : List Char) (op : Int) :
    lookupStore (setClaimed i op s) i =
      (lookupStore s i).map (fun u => { u with claimed_by := some op }) := by
  induction s with
  | nil => rfl
  | cons p rest ih =>
    by_cases h : p.1 = i
    · simp [setClaimed, lookupStore, h]
    · simp [setClaimed, lookupStore, h, ih]

theorem lookup_setClaimed_ne (s : Store) (i j : List Char) (op : Int) (hne : j ≠ i) :
    lookupStore (setClaimed i op s) j = lookupStore s j := by
  have hij : ¬i = j := fun hh => hne hh.symm
  induction s with
  | nil => rfl
  | cons p rest ih =>
    by_cases h : p.1 = i
    · simp [setClaimed, lookupStore, h, hij]
    · by_cases hpj : p.1 = j
      · simp [setClaimed, lookupStore, h, hpj, hne]
      · simp [setClaimed, lookupStore, h, hpj, ih]

theorem mem_entry_of_mem_vals (s : Store) (t : Ticket) (h : t ∈ vals s)
    (hwf : WFStore s) : (t.ticket_id, t) ∈ s := by
  obtain ⟨p, hp, hpt⟩ := List.mem_map.mp h
  have hk := hwf.2 p hp
  cases p with
  | mk k u =>
    simp only at hpt
    subst hpt
    simp only at hk
    rw [hk] at hp
    exact hp

theorem lookup_of_mem_wf (s : Store) (k : List Char) (u : Ticket)
    (hnd : (s.map Prod.fst).Nodup) (h : (k, u) ∈ s) : lookupStore s k = some u := by
  induction s with
  | nil => simp at h
  | cons p rest ih =>
    rcases List.mem_cons.mp h with h | h
    · rw [← h]
      simp [lookupStore]
    · have hk : k ∈ rest.map Prod.fst := List.mem_map.mpr ⟨(k, u), h, rfl⟩
      have hp : ¬p.1 = k := by
        intro hh
        rw [List.map_cons, List.nodup_cons] at hnd
        exact hnd.1 (hh ▸ hk)
      simp only [lookupStore, if_neg hp]
      exact ih (by rw [List.map_cons, List.nodup_cons] at hnd; exact hnd.2) h

/-- C2.  `_claim_oldest` returns `none` exactly when no unresolved unclaimed
ticket exists (a normal empty result); on success it returns a ticket that
was unresolved and unclaimed in the pre-state, with the smallest creation
timestamp among the eligible tickets, whose `claimed_by` is now the calling
operator; and (on a well-formed store) the only store change is that one
entry's `claimed_by`. -/
theorem C2_claim_oldest (operatorId : Int) (s : Store) :
    ((claim_oldest operatorId s).1 = none ↔
       ∀ t ∈ vals s, t.resolved = true ∨ t.claimed_by ≠ none) ∧
    (∀ t, (claim_oldest operatorId s).1 = some t →
       t.claimed_by = some operatorId ∧
       ∃ t0, t0 ∈ vals s ∧ t0.resolved = false ∧ t0.claimed_by = none ∧
         t = { t0 with claimed_by := some operatorId } ∧
         (∀ u ∈ vals s, u.resolved = false → u.claimed_by = none →
            t0.created_ts ≤ u.created_ts) ∧
         (WFStore s →
            lookupStore (claim_oldest operatorId s).2 t0.ticket_id = some t ∧
            ∀ j, j ≠ t0.ticket_id →
              lookupStore (claim_oldest operatorId s).2 j = lookupStore s j)) := by
  cases hsort : sortByCreated ((vals s).filter eligTicket) with
  | nil =>
    have hperm := sortByCreated_perm ((vals s).filter eligTicket)
    rw [hsort] at hperm
    have hfil : (vals s).filter eligTicket = [] := hperm.symm.eq_nil
    constructor
    · simp only [claim_oldest, hsort, true_iff]
      rw [List.filter_eq_nil_iff] at hfil
      intro t ht
      by_cases hres : t.resolved = true
      · exact Or.inl hres
      · refine Or.inr (fun hcl => hfil t ht ?_)
        simp [eligTicket, Bool.not_eq_true] at hres
        simp [eligTicket, hres, hcl]
    · intro t hsome
      simp [claim_oldest, hsort] at hsome
  | cons t0 rest =>
    have hperm := sortByCreated_perm ((vals s).filter eligTicket)
    rw [hsort] at hperm
    have ht0mem : t0 ∈ (vals s).filter eligTicket :=
      hperm.mem_iff.mp (List.mem_cons_self _ _)
    have ht0e := List.mem_filter.mp ht0mem
    have ht0v : t0 ∈ vals s := ht0e.1
    have helig0 : t0.resolved = false ∧ t0.claimed_by = none := by
      have h := ht0e.2
      simp only [eligTicket, Bool.and_eq_true, Bool.not_eq_true',
        Option.isNone_iff_eq_none] at h
      exact h
    constructor
    · constructor
      · intro h
        simp [claim_oldest, hsort] at h
      · intro hall
        exfalso
        rcases hall t0 ht0v with h | h
        · rw [helig0.1] at h; cases h
        · exact h helig0.2
    · intro t hsome
      have ht : t = { t0 with claimed_by := some operatorId } := by
        simp only [claim_oldest, hsort, Option.some_inj] at hsome
        exact hsome.symm
      subst ht
      refine ⟨rfl, t0, ht0v, helig0.1, helig0.2, rfl, ?_, ?_⟩
      · intro u hu hur huc
        have humem : u ∈ (vals s).filter eligTicket := by
          rw [List.mem_filter]
          exact ⟨hu, by simp [eligTicket, hur, huc]⟩
        rcases List.mem_cons.mp (hperm.mem_iff.mpr humem) with rfl | hmem
        · exact le_refl _
        · have hsorted := sortByCreated_sorted ((vals s).filter eligTicket)
          rw [hsort] at hsorted
          exact List.rel_of_sorted_cons hsorted u hmem
      · intro hwf
        have hsnd : (claim_oldest operatorId s).2 = setClaimed t0.ticket_id operatorId s := by
          simp [claim_oldest, hsort]
        constructor
        · rw [hsnd, lookup_setClaimed_self,
            lookup_of_mem_wf s _ t0 hwf.1 (mem_entry_of_mem_vals s t0 ht0v hwf)]
          rfl
        · intro j hj
          rw [hsnd, lookup_setClaimed_ne s _ j operatorId hj]

/-- C2 witness: on a concrete two-ticket store the claim takes the older
ticket (created at 10, not 20) and assigns it to operator 99. -/
theorem C2_claim_oldest_witness :
    (Ticket.mk ("10_5".toList) ("telegram".toList) 5 ("q1".toList) ("s1".toList)
      10 (some 99) 0 0 false).claimed_by = some 99 :=
  ((C2_claim_oldest 99
      ((create_ticket 20 ("telegram".toList) 6 ("q2".toList) ("s2".toList)
        (create_ticket 10 ("telegram".toList) 5 ("q1".toList) ("s1".toList) []).2).2)).2
    (Ticket.mk ("10_5".toList) ("telegram".toList) 5 ("q1".toList) ("s1".toList)
      10 (some 99) 0 0 false) (by decide)).1

-- ## Claim theorems for the pure text components

/-- C7.  Tokenisation only yields tokens of length ≥ 2 over the canonical
alphabet (lower-case Latin and Cyrillic letters after the `ё`→`е`
substitution, and digits), and normalisation is idempotent. -/
theorem C7_normalize_tokens (x : List Char) :
    (∀ tok ∈ tokenize x, 2 ≤ tok.length ∧ ∀ c ∈ tok, isCanonChar c = true) ∧
    normalize_text (normalize_text x) = normalize_text x :=
  ⟨tokenize_sound x, normalize_text_idem x⟩

/-- C7 witness: a concrete noisy input has a well-formed token and is a
fixed point of double normalisation. -/
theorem C7_normalize_tokens_witness :
    2 ≤ ("привет".toList).length ∧
    normalize_text (normalize_text ("  Привет,   МИР-77! Ёж  ".toList)) =
      normalize_text ("  Привет,   МИР-77! Ёж  ".toList) :=
  ⟨((C7_normalize_tokens ("  Привет,   МИР-77! Ёж  ".toList)).1
      ("привет".toList) (by decide)).1,
    (C7_normalize_tokens ("  Привет,   МИР-77! Ёж  ".toList)).2⟩

/-- C8 (amended).  The Fact-Guard returns the fallback verbatim when the
candidate introduces a numeric substring absent from the facts, contains a
banned hedging phrase, or is empty after trimming; in every other case it
returns the candidate trimmed of surrounding whitespace (not byte-for-byte
unchanged). -/
theorem C8_fact_guard (ai facts fb : List Char) :
    ((∃ n ∈ extract_numbers ai, (extract_numbers facts).contains n = false) ∨
       (∃ w ∈ bannedWords, listHasSub w (lowerL ai) = true) ∨ stripL ai = [] →
      safe_ai_answer_or_fallback ai facts fb = fb) ∧
    (¬((∃ n ∈ extract_numbers ai, (extract_numbers facts).contains n = false) ∨
       (∃ w ∈ bannedWords, listHasSub w (lowerL ai) = true) ∨ stripL ai = []) →
      safe_ai_answer_or_fallback ai facts fb = stripL ai) := by
  have e1 : (0 < ((extract_numbers ai).filter
      (fun n => !((extract_numbers facts).contains n))).length) ↔
      ∃ n ∈ extract_numbers ai, (extract_numbers facts).contains n = false := by
    rw [List.length_pos]
    constructor
    · intro h
      obtain ⟨n, hn⟩ := List.exists_mem_of_ne_nil _ h
      rw [List.mem_filter] at hn
      exact ⟨n, hn.1, by simpa using hn.2⟩
    · rintro ⟨n, hn, hc⟩
      exact List.ne_nil_of_mem (List.mem_filter.mpr ⟨hn, by simpa using hc⟩)
  have e2 : (bannedWords.any (fun w => listHasSub w (lowerL ai)) = true) ↔
      ∃ w ∈ bannedWords, listHasSub w (lowerL ai) = true := List.any_eq_true
  constructor
  · intro h
    unfold safe_ai_answer_or_fallback
    by_cases h1 : 0 < ((extract_numbers ai).filter
        (fun n => !((extract_numbers facts).contains n))).length
    · rw [if_pos h1]
    · rw [if_neg h1]
      by_cases h2 : bannedWords.any (fun w => listHasSub w (lowerL ai)) = true
      · rw [if_pos h2]
      · rw [if_neg h2]
        have h3 : stripL ai = [] := by
          rcases h with ha | hb | hc
          · exact absurd (e1.mpr ha) h1
          · exact absurd (e2.mpr hb) h2
          · exact hc
        rw [if_pos h3]
  · intro h
    rw [not_or, not_or] at h
    unfold safe_ai_answer_or_fallback
    rw [if_neg (fun hh => h.1 (e1.mp hh)), if_neg (fun hh => h.2.1 (e2.mp hh)),
      if_neg h.2.2]

/-- C8, counterexample to the claim as stated: an accepted candidate with
surrounding whitespace is returned trimmed, not unchanged (and it is not the
fallback either, so this is the accept path). -/
theorem C8_counterexample :
    safe_ai_answer_or_fallback (" ok ".toList) [] ("FB".toList) = "ok".toList ∧
    "ok".toList ≠ " ok ".toList ∧ "ok".toList ≠ "FB".toList := by
  decide

/-- C8 witness: a candidate whose numbers all occur in the facts is accepted
(and returned trimmed). -/
theorem C8_fact_guard_witness :
    safe_ai_answer_or_fallback ("Цена 100".toList) ("100 шт".toList) ("FB".toList) =
      stripL ("Цена 100".toList) :=
  (C8_fact_guard ("Цена 100".toList) ("100 шт".toList) ("FB".toList)).2 (by decide)

-- ## Sequences of core operations (C3)

/-- The core operations that touch the ticket store: ticket creation (from
the transport loop), an operator claim ("+"), and one escalation pass. -/
inductive Op where
  | create (now : Int) (platform : List Char) (chat : Int) (text summary : List Char)
  | claim (operatorId : Int)
  | escalate (o : Rosters) (now : Int)

def applyOp (s : Store) : Op → Store
  | .create now platform chat text summary =>
    (create_ticket now platform chat text summary s).2
  | .claim operatorId => (claim_oldest operatorId s).2
  | .escalate o now => (process_escalations o now s).1

def runOps (s : Store) (l : List Op) : Store :=
  l.foldl applyOp s

theorem escStep_stage_mono (o : Rosters) (now : Int) (t : Ticket) :
    t.stage ≤ (escStep o now t).1.stage := by
  unfold escStep
  split_ifs <;> simp_all

theorem escStep_claimed_eq (o : Rosters) (now : Int) (t : Ticket) :
    (escStep o now t).1.claimed_by = t.claimed_by := by
  unfold escStep
  split_ifs <;> rfl

theorem escStep_id_eq (o : Rosters) (now : Int) (t : Ticket) :
    (escStep o now t).1.ticket_id = t.ticket_id := by
  unfold escStep
  split_ifs <;> rfl

theorem escStep_resolved_mono (o : Rosters) (now : Int) (t : Ticket)
    (h : t.resolved = true) : (escStep o now t).1.resolved = true := by
  rw [escStep_skip o now t (Or.inl h)]
  exact h

theorem lookup_process (o : Rosters) (now : Int) (s : Store) (i : List Char) :
    lookupStore (process_escalations o now s).1 i =
      (lookupStore s i).map (fun t => (escStep o now t).1) := by
  induction s with
  | nil => rfl
  | cons p rest ih =>
    by_cases h : p.1 = i <;> simp [process_escalations, lookupStore, h, ih]

theorem lookup_dictInsert_ne (s : Store) (k : List Char) (v : Ticket)
    (j : List Char) (h : k ≠ j) : lookupStore (dictInsert s k v) j = lookupStore s j := by
  induction s with
  | nil => simp [dictInsert, lookupStore, h]
  | cons p rest ih =>
    by_cases hp : p.1 = k
    · simp [dictInsert, lookupStore, hp, h]
    · by_cases hj : p.1 = j
      · simp [dictInsert, lookupStore, hp, hj, Ne.symm h]
      · simp [dictInsert, lookupStore, hp, hj, ih]

/-- Evolution of a single stored entry under one operation: it survives (if
no colliding create id), its stage never decreases, a set `claimed_by` is
kept, `resolved` is never cleared, and a claimed-or-resolved entry is left
untouched. -/
theorem applyOp_entry (s : Store) (op : Op) (i : List Char) (t : Ticket)
    (hwf : WFStore s) (hmem : lookupStore s i = some t)
    (hnc : ∀ now platform chat text summary,
      op = Op.create now platform chat text summary → mk_ticket_id now chat ≠ i) :
    ∃ t2, lookupStore (applyOp s op) i = some t2 ∧
      t.stage ≤ t2.stage ∧
      (∀ x, t.claimed_by = some x → t2.claimed_by = some x) ∧
      (t.resolved = true → t2.resolved = true) ∧
      ((t.claimed_by ≠ none ∨ t.resolved = true) → t2 = t) := by
  cases op with
  | create now platform chat text summary =>
    refine ⟨t, ?_, le_refl _, fun x hx => hx, fun h => h, fun _ => rfl⟩
    show lookupStore (dictInsert s (mk_ticket_id now chat) _) i = some t
    rw [lookup_dictInsert_ne s _ _ i (hnc now platform chat text summary rfl)]
    exact hmem
  | claim operatorId =>
    cases hsort : sortByCreated ((vals s).filter eligTicket) with
    | nil =>
      refine ⟨t, ?_, le_refl _, fun x hx => hx, fun h => h, fun _ => rfl⟩
      show lookupStore (claim_oldest operatorId s).2 i = some t
      simp only [claim_oldest, hsort]
      exact hmem
    | cons t0 rest =>
      have hsnd : (claim_oldest operatorId s).2 = setClaimed t0.ticket_id operatorId s := by
        simp [claim_oldest, hsort]
      have hperm := sortByCreated_perm ((vals s).filter eligTicket)
      rw [hsort] at hperm
      have ht0mem : t0 ∈ (vals s).filter eligTicket :=
        hperm.mem_iff.mp (List.mem_cons_self _ _)
      have ht0e := List.mem_filter.mp ht0mem
      have helig0 : t0.resolved = false ∧ t0.claimed_by = none := by
        have h := ht0e.2
        simp only [eligTicket, Bool.and_eq_true, Bool.not_eq_true',
          Option.isNone_iff_eq_none] at h
        exact h
      by_cases hid : t0.ticket_id = i
      · have hlook0 : lookupStore s i = some t0 := by
          rw [← hid]
          exact lookup_of_mem_wf s _ t0 hwf.1 (mem_entry_of_mem_vals s t0 ht0e.1 hwf)
        have ht0t : t0 = t := by
          rw [hlook0] at hmem
          exact Option.some_inj.mp hmem
        refine ⟨{ t with claimed_by := some operatorId }, ?_, le_refl _, ?_, ?_, ?_⟩
        · show lookupStore (claim_oldest operatorId s).2 i = _
          rw [hsnd, hid, lookup_setClaimed_self, hmem]
          rfl
        · intro x hx
          rw [← ht0t] at hx
          rw [helig0.2] at hx
          cases hx
        · intro h
          rw [← ht0t, helig0.1] at h
          cases h
        · intro h
          exfalso
          rcases h with h | h
          · exact h (ht0t ▸ helig0.2)
          · rw [← ht0t, helig0.1] at h
            cases h
      · refine ⟨t, ?_, le_refl _, fun x hx => hx, fun h => h, fun _ => rfl⟩
        show lookupStore (claim_oldest operatorId s).2 i = some t
        rw [hsnd, lookup_setClaimed_ne s _ i operatorId (fun hh => hid hh.symm)]
        exact hmem
  | escalate o now =>
    refine ⟨(escStep o now t).1, ?_, escStep_stage_mono o now t, ?_, ?_, ?_⟩
    · show lookupStore (process_escalations o now s).1 i = _
      rw [lookup_process, hmem]
      rfl
    · intro x hx
      rw [escStep_claimed_eq, hx]
    · exact escStep_resolved_mono o now t
    · intro h
      rw [escStep_skip o now t (Or.symm h)]

theorem dictInsert_keys (s : Store) (k : List Char) (v : Ticket) :
    (dictInsert s k v).map Prod.fst = s.map Prod.fst ∨
    (dictInsert s k v).map Prod.fst = s.map Prod.fst ++ [k] ∧ k ∉ s.map Prod.fst := by
  induction s with
  | nil => right; simp [dictInsert]
  | cons p rest ih =>
    by_cases hp : p.1 = k
    · left; simp [dictInsert, hp]
    · rcases ih with ih | ⟨ih, hk⟩
      · left; simp [dictInsert, hp, ih]
      · right
        constructor
        · simp [dictInsert, hp, ih]
        · simp only [List.map_cons, List.mem_cons]
          rintro (h | h)
          · exact hp h.symm
          · exact hk h

theorem setClaimed_keys (s : Store) (i : List Char) (op : Int) :
    (setClaimed i op s).map Prod.fst = s.map Prod.fst := by
  induction s with
  | nil => rfl
  | cons p rest ih =>
    by_cases hp : p.1 = i <;> simp [setClaimed, hp, ih]

theorem setClaimed_coherent (s : Store) (i : List Char) (op : Int)
    (h : ∀ p ∈ s, p.1 = p.2.ticket_id) : ∀ p ∈ setClaimed i op s, p.1 = p.2.ticket_id := by
  induction s with
  | nil => simp [setClaimed]
  | cons q rest ih =>
    by_cases hq : q.1 = i
    · intro p hp
      rcases List.mem_cons.mp (by simpa [setClaimed, hq] using hp) with rfl | hp'
      · show i = q.2.ticket_id
        rw [← hq]
        exact h q (List.mem_cons_self _ _)
      · exact h p (List.mem_cons_of_mem _ hp')
    · intro p hp
      rcases List.mem_cons.mp (by simpa [setClaimed, hq] using hp) with rfl | hp'
      · exact h p (List.mem_cons_self _ _)
      · exact ih (fun q hq2 => h q (List.mem_cons_of_mem _ hq2)) p hp'

theorem process_coherent (o : Rosters) (now : Int) (s : Store)
    (h : ∀ p ∈ s, p.1 = p.2.ticket_id) :
    ∀ p ∈ (process_escalations o now s).1, p.1 = p.2.ticket_id := by
  induction s with
  | nil => simp [process_escalations]
  | cons q rest ih =>
    intro p hp
    rcases List.mem_cons.mp (by simpa [process_escalations] using hp) with rfl | hp2
    · show q.1 = ((escStep o now q.2).1).ticket_id
      rw [escStep_id_eq]
      exact h q (List.mem_cons_self _ _)
    · exact ih (fun r hr => h r (List.mem_cons_of_mem _ hr)) p hp2

theorem process_keys (o : Rosters) (now : Int) (s : Store) :
    (process_escalations o now s).1.map Prod.fst = s.map Prod.fst := by
  induction s with
  | nil => rfl
  | cons p rest ih => simp [process_escalations, ih]

theorem dictInsert_coherent (s : Store) (k : List Char) (v : Ticket)
    (h : ∀ p ∈ s, p.1 = p.2.ticket_id) (hv : k = v.ticket_id) :
    ∀ p ∈ dictInsert s k v, p.1 = p.2.ticket_id := by
  induction s with
  | nil =>
    intro p hp
    rcases List.mem_singleton.mp (by simpa [dictInsert] using hp) with rfl
    exact hv
  | cons q rest ih =>
    by_cases hq : q.1 = k
    · intro p hp
      rcases List.mem_cons.mp (by simpa [dictInsert, hq] using hp) with rfl | hp'
      · exact hv
      · exact h p (List.mem_cons_of_mem _ hp')
    · intro p hp
      rcases List.mem_cons.mp (by simpa [dictInsert, hq] using hp) with rfl | hp'
      · exact h p (List.mem_cons_self _ _)
      · exact ih (fun q hq2 => h q (List.mem_cons_of_mem _ hq2)) p hp'

theorem applyOp_wf (s : Store) (op : Op) (hwf : WFStore s) : WFStore (applyOp s op) := by
  cases op with
  | create now platform chat text summary =>
    constructor
    · rcases dictInsert_keys s (mk_ticket_id now chat)
        { ticket_id := mk_ticket_id now chat, platform := platform,
          customer_chat_id := chat, customer_text := text, summary := summary,
          created_ts := now, claimed_by := none, last_ping_ts := 0, stage := 0,
          resolved := false } with h | ⟨h, hk⟩
      · show ((dictInsert s _ _).map Prod.fst).Nodup
        rw [h]; exact hwf.1
      · show ((dictInsert s _ _).map Prod.fst).Nodup
        rw [h, List.nodup_append]
        refine ⟨hwf.1, List.nodup_singleton _, ?_⟩
        intro x hx hx2
        rw [List.mem_singleton] at hx2
        subst hx2
        exact hk hx
    · exact dictInsert_coherent s _ _ hwf.2 rfl
  | claim operatorId =>
    cases hsort : sortByCreated ((vals s).filter eligTicket) with
    | nil =>
      have h2 : (claim_oldest operatorId s).2 = s := by simp [claim_oldest, hsort]
      show WFStore (claim_oldest operatorId s).2
      rw [h2]; exact hwf
    | cons t0 rest =>
      have h2 : (claim_oldest operatorId s).2 = setClaimed t0.ticket_id operatorId s := by
        simp [claim_oldest, hsort]
      show WFStore (claim_oldest operatorId s).2
      rw [h2]
      exact ⟨by rw [setClaimed_keys]; exact hwf.1, setClaimed_coherent s _ _ hwf.2⟩
  | escalate o now =>
    exact ⟨by
        show ((process_escalations o now s).1.map Prod.fst).Nodup
        rw [process_keys]; exact hwf.1,
      process_coherent o now s hwf.2⟩

/-- C3.  Along any sequence of core operations (with no id-colliding create,
see C4), a stored ticket's stage is non-decreasing, its `claimed_by` passes
from absent to set at most once (a set value is never changed), `resolved`
is never cleared, a claimed-or-resolved ticket is left completely untouched
by every later operation (so it cannot be claimed again), and one escalation
step on a claimed-or-resolved ticket sends nothing and changes nothing. -/
theorem C3_ticket_invariants (l : List Op) (s : Store) (i : List Char) (t : Ticket)
    (hwf : WFStore s) (hmem : lookupStore s i = some t)
    (hnc : ∀ op ∈ l, ∀ now platform chat text summary,
      op = Op.create now platform chat text summary → mk_ticket_id now chat ≠ i) :
    (∃ t2, lookupStore (runOps s l) i = some t2 ∧
      t.stage ≤ t2.stage ∧
      (∀ x, t.claimed_by = some x → t2.claimed_by = some x) ∧
      (t.resolved = true → t2.resolved = true) ∧
      ((t.claimed_by ≠ none ∨ t.resolved = true) → t2 = t)) ∧
    (∀ (o : Rosters) (now : Int), t.claimed_by ≠ none ∨ t.resolved = true →
      escStep o now t = (t, [])) := by
  constructor
  · induction l generalizing s t with
    | nil => exact ⟨t, hmem, le_refl _, fun x hx => hx, fun h => h, fun _ => rfl⟩
    | cons op l ih =>
      obtain ⟨t1, hl1, hs1, hc1, hr1, hf1⟩ := applyOp_entry s op i t hwf hmem
        (hnc op (List.mem_cons_self _ _))
      obtain ⟨t2, hl2, hs2, hc2, hr2, hf2⟩ := ih (applyOp s op) t1
        (applyOp_wf s op hwf) hl1
        (fun op2 hop2 => hnc op2 (List.mem_cons_of_mem _ hop2))
      refine ⟨t2, hl2, le_trans hs1 hs2, fun x hx => hc2 x (hc1 x hx),
        fun h => hr2 (hr1 h), fun h => ?_⟩
      have ht1 : t1 = t := hf1 h
      rw [hf2 (by rw [ht1]; exact h), ht1]
  · intro o now h
    exact escStep_skip o now t (Or.symm h)

/-- C3 witness: an escalation step on a concrete claimed ticket changes
nothing and sends nothing. -/
theorem C3_ticket_invariants_witness :
    escStep (Rosters.mk [7] [] [9]) 5000
      (Ticket.mk ("10_5".toList) ("telegram".toList) 5 ("q".toList) ("s".toList)
        10 (some 50) 20 1 false) =
    ((Ticket.mk ("10_5".toList) ("telegram".toList) 5 ("q".toList) ("s".toList)
        10 (some 50) 20 1 false), []) :=
  (C3_ticket_invariants []
      [(("10_5".toList),
        Ticket.mk ("10_5".toList) ("telegram".toList) 5 ("q".toList) ("s".toList)
          10 (some 50) 20 1 false)]
      ("10_5".toList)
      (Ticket.mk ("10_5".toList) ("telegram".toList) 5 ("q".toList) ("s".toList)
        10 (some 50) 20 1 false)
      (by constructor <;> decide) (by decide)
      (by intro op hop; simp at hop)).2
    (Rosters.mk [7] [] [9]) 5000 (Or.inl (by decide))

-- ## Iterated escalation passes (C6)

/-- `n` consecutive escalation passes over the store at fixed simulated time
`now`, with all sends collected in order. -/
def runPasses (o : Rosters) (now : Int) : Nat → Store → Store × List (Int × List Char)
  | 0, s => (s, [])
  | n + 1, s =>
    let r := process_escalations o now s
    let rr := runPasses o now n r.1
    (rr.1, r.2 ++ rr.2)

/-- The trajectory of a single ticket under `n` escalation steps (the
per-ticket restriction of `runPasses`, which acts on tickets independently). -/
def stepsT (o : Rosters) (now : Int) : Nat → Ticket → Ticket × List (Int × List Char)
  | 0, t => (t, [])
  | n + 1, t =>
    let r := escStep o now t
    let rr := stepsT o now n r.1
    (rr.1, r.2 ++ rr.2)

theorem runPasses_nil (o : Rosters) (now : Int) (n : Nat) :
    runPasses o now n [] = ([], []) := by
  induction n with
  | zero => rfl
  | succ n ih => simp [runPasses, process_escalations, ih]

theorem runPasses_cons (o : Rosters) (now : Int) (n : Nat)
    (p : List Char × Ticket) (rest : Store) (P : Int × List Char → Bool) :
    (runPasses o now n (p :: rest)).1 =
      (p.1, (stepsT o now n p.2).1) :: (runPasses o now n rest).1 ∧
    (runPasses o now n (p :: rest)).2.countP P =
      (stepsT o now n p.2).2.countP P + (runPasses o now n rest).2.countP P := by
  induction n generalizing p rest with
  | zero => simp [runPasses, stepsT]
  | succ n ih =>
    obtain ⟨ih1, ih2⟩ := ih (p.1, (escStep o now p.2).1) (process_escalations o now rest).1
    constructor
    · show (runPasses o now n ((p.1, (escStep o now p.2).1) ::
          (process_escalations o now rest).1)).1 = _
      rw [ih1]
      rfl
    · show ((escStep o now p.2).2 ++ (process_escalations o now rest).2 ++
        (runPasses o now n ((p.1, (escStep o now p.2).1) ::
          (process_escalations o now rest).1)).2).countP P = _
      rw [show ((p.1, (escStep o now p.2).1).2) = (escStep o now p.2).1 from rfl] at ih2
      rw [List.countP_append, List.countP_append, ih2]
      show _ = ((escStep o now p.2).2 ++ (stepsT o now n (escStep o now p.2).1).2).countP P +
        ((process_escalations o now rest).2 ++
          (runPasses o now n (process_escalations o now rest).1).2).countP P
      rw [List.countP_append, List.countP_append]
      omega

theorem countP_pingMsgs (targets : List Int) (msg : List Char) (a : Int)
    (h : a ∉ targets) :
    (pingMsgs targets msg).countP (fun m => m.1 == a) = 0 := by
  rw [List.countP_eq_zero]
  intro m hm
  obtain ⟨c, hc, rfl⟩ := List.mem_map.mp hm
  show ¬((c == a) = true)
  simp only [beq_iff_eq]
  intro hca
  exact h (hca ▸ hc)

theorem dedupFirstAux_sub (l : List Int) :
    ∀ seen x, x ∈ dedupFirstAux l seen → x ∈ l := by
  induction l with
  | nil => intro seen x h; simp [dedupFirstAux] at h
  | cons c rest ih =>
    intro seen x h
    by_cases hc : seen.contains c
    · simp only [dedupFirstAux, if_pos hc] at h
      exact List.mem_cons_of_mem _ (ih seen x h)
    · simp only [dedupFirstAux, if_neg hc, List.mem_cons] at h
      rcases h with rfl | h
      · exact List.mem_cons_self _ _
      · exact List.mem_cons_of_mem _ (ih (c :: seen) x h)

theorem dedupFirst_ne_nil (l : List Int) (h : l ≠ []) : dedupFirst l ≠ [] := by
  cases l with
  | nil => exact absurd rfl h
  | cons c rest => simp [dedupFirst, dedupFirstAux]

theorem stepsT_zero (o : Rosters) (now : Int) (t : Ticket) :
    stepsT o now 0 t = (t, []) := rfl

theorem stepsT_step (o : Rosters) (now : Int) (n : Nat) (t t2 : Ticket)
    (m : List (Int × List Char)) (h : escStep o now t = (t2, m)) :
    stepsT o now (n + 1) t = ((stepsT o now n t2).1, m ++ (stepsT o now n t2).2) := by
  show ((stepsT o now n (escStep o now t).1).1,
    (escStep o now t).2 ++ (stepsT o now n (escStep o now t).1).2) = _
  rw [h]

theorem stepsT_five_caseC (mainL allL : List Int) (a : Int) (now : Int) (t : Ticket)
    (h0 : t.stage = 0) (hlp : t.last_ping_ts = 0) (hcl : t.claimed_by = none)
    (hres : t.resolved = false) (hcre : 0 ≤ t.created_ts)
    (hage : t.created_ts + 3600 ≤ now)
    (ham : a ∉ mainL) (haa : a ∉ allL) (hcu : t.customer_chat_id ≠ a)
    (hm : mainL = []) (hal : allL = []) :
    (stepsT (Rosters.mk mainL allL [a]) now 5 t).1.resolved = true ∧
    (stepsT (Rosters.mk mainL allL [a]) now 5 t).2.countP (fun m => m.1 == a) = 1 := by
  have hd : dedupFirst ((Rosters.mk mainL allL [a]).main ++ (Rosters.mk mainL allL [a]).all) = [] := by
    show dedupFirst (mainL ++ allL) = []
    rw [hm, hal]
    rfl
  have e1 : escStep (Rosters.mk mainL allL [a]) now t = ({ t with stage := 1 }, []) := by
    rw [escStep_eq_stage0 _ now t hres hcl h0 hlp, if_pos (show (Rosters.mk mainL allL [a]).main = [] from hm)]
  have e2 : escStep (Rosters.mk mainL allL [a]) now ({ t with stage := 1 }) =
      ({ ({ t with stage := 1 } : Ticket) with stage := 2 }, []) := by
    rw [escStep_eq_stage1 _ now _ (by exact hres) (by exact hcl) (by show (1 : Nat) = 1; rfl)
      (by show (60 : Int) ≤ now - t.created_ts; omega)
      (by show (60 : Int) ≤ now - t.last_ping_ts; omega), if_pos hd]
  have e3 : escStep (Rosters.mk mainL allL [a]) now ({ ({ t with stage := 1 } : Ticket) with stage := 2 }) =
      ({ ({ ({ t with stage := 1 } : Ticket) with stage := 2 } : Ticket) with stage := 3 }, []) := by
    rw [escStep_eq_stage2 _ now _ (by exact hres) (by exact hcl) (by show (2 : Nat) = 2; rfl)
      (by show (240 : Int) ≤ now - t.created_ts; omega)
      (by show (180 : Int) ≤ now - t.last_ping_ts; omega), if_pos hd]
  have e4 : escStep (Rosters.mk mainL allL [a]) now
        ({ ({ ({ t with stage := 1 } : Ticket) with stage := 2 } : Ticket) with stage := 3 }) =
      ({ ({ ({ ({ t with stage := 1 } : Ticket) with stage := 2 } : Ticket) with stage := 3 } : Ticket) with stage := 4 },
        [(t.customer_chat_id, bot_prefixed finalBusyText)]) := by
    rw [escStep_eq_stage3 _ now _ (by exact hres) (by exact hcl) (by show (3 : Nat) = 3; rfl)
      (by show (660 : Int) ≤ now - t.created_ts; omega)]
  have e5 : escStep (Rosters.mk mainL allL [a]) now
        ({ ({ ({ ({ t with stage := 1 } : Ticket) with stage := 2 } : Ticket) with stage := 3 } : Ticket) with stage := 4 }) =
      ({ ({ ({ ({ ({ t with stage := 1 } : Ticket) with stage := 2 } : Ticket) with stage := 3 } : Ticket) with stage := 4 } : Ticket)
          with resolved := true, last_ping_ts := now },
        pingMsgs [a] t.summary) := by
    rw [escStep_eq_force _ now _ (by exact hres) (by exact hcl)
      (by show ¬((4 : Nat) = 0 ∧ t.last_ping_ts = 0); omega)
      (by show ¬((4 : Nat) = 1 ∧ (60 : Int) ≤ now - t.created_ts ∧ (60 : Int) ≤ now - t.last_ping_ts); omega)
      (by show ¬((4 : Nat) = 2 ∧ (240 : Int) ≤ now - t.created_ts ∧ (180 : Int) ≤ now - t.last_ping_ts); omega)
      (by show ¬((4 : Nat) = 3 ∧ (660 : Int) ≤ now - t.created_ts); omega)
      (by show (3600 : Int) ≤ now - t.created_ts; omega),
      if_neg (show ¬(Rosters.mk mainL allL [a]).admin = [] by simp)]
  rw [stepsT_step _ now 4 _ _ _ e1, stepsT_step _ now 3 _ _ _ e2, stepsT_step _ now 2 _ _ _ e3,
    stepsT_step _ now 1 _ _ _ e4, stepsT_step _ now 0 _ _ _ e5, stepsT_zero]
  constructor
  · rfl
  · simp [List.countP_append, pingMsgs, List.countP_cons, hcu, beq_iff_eq]

theorem stepsT_five_caseA (mainL allL : List Int) (a : Int) (now : Int) (t : Ticket)
    (h0 : t.stage = 0) (hlp : t.last_ping_ts = 0) (hcl : t.claimed_by = none)
    (hres : t.resolved = false) (hcre : 0 ≤ t.created_ts)
    (hage : t.created_ts + 3600 ≤ now)
    (ham : a ∉ mainL) (hcu : t.customer_chat_id ≠ a)
    (hm : ¬mainL = []) :
    (stepsT (Rosters.mk mainL allL [a]) now 5 t).1.resolved = true ∧
    (stepsT (Rosters.mk mainL allL [a]) now 5 t).2.countP (fun m => m.1 == a) = 1 := by
  have e1 : escStep (Rosters.mk mainL allL [a]) now t =
      ({ t with stage := 1, last_ping_ts := now }, pingMsgs mainL t.summary) := by
    rw [escStep_eq_stage0 _ now t hres hcl h0 hlp,
      if_neg (show ¬(Rosters.mk mainL allL [a]).main = [] from hm)]
  have e2 : escStep (Rosters.mk mainL allL [a]) now ({ t with stage := 1, last_ping_ts := now }) =
      ({ ({ t with stage := 1, last_ping_ts := now } : Ticket) with
          resolved := true, last_ping_ts := now }, pingMsgs [a] t.summary) := by
    rw [escStep_eq_force _ now _ (by exact hres) (by exact hcl)
      (by show ¬((1 : Nat) = 0 ∧ now = (0 : Int)); omega)
      (by show ¬((1 : Nat) = 1 ∧ (60 : Int) ≤ now - t.created_ts ∧ (60 : Int) ≤ now - now); omega)
      (by show ¬((1 : Nat) = 2 ∧ (240 : Int) ≤ now - t.created_ts ∧ (180 : Int) ≤ now - now); omega)
      (by show ¬((1 : Nat) = 3 ∧ (660 : Int) ≤ now - t.created_ts); omega)
      (by show (3600 : Int) ≤ now - t.created_ts; omega),
      if_neg (show ¬(Rosters.mk mainL allL [a]).admin = [] by simp)]
  have e3 := escStep_skip (Rosters.mk mainL allL [a]) now
    ({ ({ t with stage := 1, last_ping_ts := now } : Ticket) with
        resolved := true, last_ping_ts := now }) (Or.inl rfl)
  rw [stepsT_step _ now 4 _ _ _ e1, stepsT_step _ now 3 _ _ _ e2, stepsT_step _ now 2 _ _ _ e3,
    stepsT_step _ now 1 _ _ _ e3, stepsT_step _ now 0 _ _ _ e3, stepsT_zero]
  constructor
  · rfl
  · rw [List.countP_append, countP_pingMsgs mainL t.summary a ham]
    simp [List.countP_append, pingMsgs]

theorem stepsT_five_caseB (mainL allL : List Int) (a : Int) (now : Int) (t : Ticket)
    (h0 : t.stage = 0) (hlp : t.last_ping_ts = 0) (hcl : t.claimed_by = none)
    (hres : t.resolved = false) (hcre : 0 ≤ t.created_ts)
    (hage : t.created_ts + 3600 ≤ now)
    (ham : a ∉ mainL) (haa : a ∉ allL) (hcu : t.customer_chat_id ≠ a)
    (hm : mainL = []) (hal : ¬allL = []) :
    (stepsT (Rosters.mk mainL allL [a]) now 5 t).1.resolved = true ∧
    (stepsT (Rosters.mk mainL allL [a]) now 5 t).2.countP (fun m => m.1 == a) = 1 := by
  have hdne : ¬dedupFirst ((Rosters.mk mainL allL [a]).main ++ (Rosters.mk mainL allL [a]).all) = [] := by
    show ¬dedupFirst (mainL ++ allL) = []
    rw [hm, List.nil_append]
    exact dedupFirst_ne_nil allL hal
  have hAd : a ∉ dedupFirst ((Rosters.mk mainL allL [a]).main ++ (Rosters.mk mainL allL [a]).all) := by
    show a ∉ dedupFirst (mainL ++ allL)
    intro hmem
    rcases List.mem_append.mp (dedupFirstAux_sub (mainL ++ allL) [] a hmem) with h | h
    · exact ham h
    · exact haa h
  have e1 : escStep (Rosters.mk mainL allL [a]) now t = ({ t with stage := 1 }, []) := by
    rw [escStep_eq_stage0 _ now t hres hcl h0 hlp,
      if_pos (show (Rosters.mk mainL allL [a]).main = [] from hm)]
  have e2 : escStep (Rosters.mk mainL allL [a]) now ({ t with stage := 1 }) =
      ({ ({ t with stage := 1 } : Ticket) with stage := 2, last_ping_ts := now },
        pingMsgs (dedupFirst ((Rosters.mk mainL allL [a]).main ++ (Rosters.mk mainL allL [a]).all))
          t.summary) := by
    rw [escStep_eq_stage1 _ now _ (by exact hres) (by exact hcl) (by show (1 : Nat) = 1; rfl)
      (by show (60 : Int) ≤ now - t.created_ts; omega)
      (by show (60 : Int) ≤ now - t.last_ping_ts; omega), if_neg hdne]
  have e3 : escStep (Rosters.mk mainL allL [a]) now
        ({ ({ t with stage := 1 } : Ticket) with stage := 2, last_ping_ts := now }) =
      ({ ({ ({ t with stage := 1 } : Ticket) with stage := 2, last_ping_ts := now } : Ticket) with
          resolved := true, last_ping_ts := now }, pingMsgs [a] t.summary) := by
    rw [escStep_eq_force _ now _ (by exact hres) (by exact hcl)
      (by show ¬((2 : Nat) = 0 ∧ now = (0 : Int)); omega)
      (by show ¬((2 : Nat) = 1 ∧ (60 : Int) ≤ now - t.created_ts ∧ (60 : Int) ≤ now - now); omega)
      (by show ¬((2 : Nat) = 2 ∧ (240 : Int) ≤ now - t.created_ts ∧ (180 : Int) ≤ now - now); omega)
      (by show ¬((2 : Nat) = 3 ∧ (660 : Int) ≤ now - t.created_ts); omega)
      (by show (3600 : Int) ≤ now - t.created_ts; omega),
      if_neg (show ¬(Rosters.mk mainL allL [a]).admin = [] by simp)]
  have e4 := escStep_skip (Rosters.mk mainL allL [a]) now
    ({ ({ ({ t with stage := 1 } : Ticket) with stage := 2, last_ping_ts := now } : Ticket) with
        resolved := true, last_ping_ts := now }) (Or.inl rfl)
  rw [stepsT_step _ now 4 _ _ _ e1, stepsT_step _ now 3 _ _ _ e2, stepsT_step _ now 2 _ _ _ e3,
    stepsT_step _ now 1 _ _ _ e4, stepsT_step _ now 0 _ _ _ e4, stepsT_zero]
  constructor
  · rfl
  · simp only [List.countP_append, List.nil_append]
    rw [countP_pingMsgs _ t.summary a hAd]
    simp [pingMsgs]

/-- Any fresh, never-claimed ticket aged at least 3600s is resolved within
five passes at a fixed simulated time, with exactly one send to the sole
admin id (whatever the main/all rosters). -/
theorem stepsT_five (mainL allL : List Int) (a : Int) (now : Int) (t : Ticket)
    (h0 : t.stage = 0) (hlp : t.last_ping_ts = 0) (hcl : t.claimed_by = none)
    (hres : t.resolved = false) (hcre : 0 ≤ t.created_ts)
    (hage : t.created_ts + 3600 ≤ now)
    (ham : a ∉ mainL) (haa : a ∉ allL) (hcu : t.customer_chat_id ≠ a) :
    (stepsT (Rosters.mk mainL allL [a]) now 5 t).1.resolved = true ∧
    (stepsT (Rosters.mk mainL allL [a]) now 5 t).2.countP (fun m => m.1 == a) = 1 := by
  by_cases hm : mainL = []
  · by_cases hal : allL = []
    · exact stepsT_five_caseC mainL allL a now t h0 hlp hcl hres hcre hage ham haa hcu hm hal
    · exact stepsT_five_caseB mainL allL a now t h0 hlp hcl hres hcre hage ham haa hcu hm hal
  · exact stepsT_five_caseA mainL allL a now t h0 hlp hcl hres hcre hage ham hcu hm

/-- C6.  Round-trip: a store of N fresh, never-claimed tickets, run through
escalation passes with simulated time at least 3600s past every creation,
ends with zero unresolved tickets and exactly N sends to the admin id - one
per ticket.  (Five passes at the advanced time suffice in every roster
configuration.) -/
theorem C6_force_resolve_roundtrip (mainL allL : List Int) (a : Int) (now : Int)
    (s : Store) (ham : a ∉ mainL) (haa : a ∉ allL)
    (hfresh : ∀ p ∈ s, p.2.stage = 0 ∧ p.2.last_ping_ts = 0 ∧ p.2.claimed_by = none ∧
      p.2.resolved = false ∧ p.2.customer_chat_id ≠ a ∧ 0 ≤ p.2.created_ts ∧
      p.2.created_ts + 3600 ≤ now) :
    (∀ p ∈ (runPasses (Rosters.mk mainL allL [a]) now 5 s).1, p.2.resolved = true) ∧
    (runPasses (Rosters.mk mainL allL [a]) now 5 s).2.countP (fun m => m.1 == a) =
      s.length := by
  induction s with
  | nil => simp [runPasses_nil]
  | cons p rest ih =>
    obtain ⟨ihr, ihc⟩ := ih (fun q hq => hfresh q (List.mem_cons_of_mem _ hq))
    obtain ⟨h1, h2, h3, h4, h5, h6, h7⟩ := hfresh p (List.mem_cons_self _ _)
    obtain ⟨c1, c2⟩ := runPasses_cons (Rosters.mk mainL allL [a]) now 5 p rest
      (fun m => m.1 == a)
    obtain ⟨f1, f2⟩ := stepsT_five mainL allL a now p.2 h1 h2 h3 h4 h6 h7 ham haa h5
    constructor
    · intro q hq
      rw [c1] at hq
      rcases List.mem_cons.mp hq with rfl | hq
      · exact f1
      · exact ihr q hq
    · rw [c2, f2, ihc, List.length_cons]
      omega

/-- C6 witness: two fresh tickets, passes at t = 4000, admin id 5: both end
resolved and the admin is alerted exactly twice (once per ticket). -/
theorem C6_force_resolve_roundtrip_witness :
    (runPasses (Rosters.mk [7] [] [5]) 4000 5
      [(("0_1".toList), Ticket.mk ("0_1".toList) ("telegram".toList) 1
          ("q1".toList) ("s1".toList) 0 none 0 0 false),
       (("10_2".toList), Ticket.mk ("10_2".toList) ("telegram".toList) 2
          ("q2".toList) ("s2".toList) 10 none 0 0 false)]).2.countP
      (fun m => m.1 == 5) = 2 :=
  (C6_force_resolve_roundtrip [7] [] 5 4000
    [(("0_1".toList), Ticket.mk ("0_1".toList) ("telegram".toList) 1
        ("q1".toList) ("s1".toList) 0 none 0 0 false),
     (("10_2".toList), Ticket.mk ("10_2".toList) ("telegram".toList) 2
        ("q2".toList) ("s2".toList) 10 none 0 0 false)]
    (by decide) (by decide) (by decide)).2

-- ## core_bot_logic.py : settings, intents, matching, decision builder

/-- The external key/value settings store (`core_db.get_setting` reads a row
or falls back to the default): `none` models a missing key. -/
def SettingsFn : Type := List Char → Option (List Char)

/-- `core_db.get_setting(key, default)`. -/
def get_setting (stf : SettingsFn) (key default : List Char) : List Char :=
  (stf key).getD default

def digitVal (c : Char) : Nat :=
  c.toNat - 48

def digitsToNat (l : List Char) : Nat :=
  l.foldl (fun acc c => acc * 10 + digitVal c) 0

/-- `parse_time_hhmm`: `^(\d{1,2}):(\d{2})$` after `strip()`, with the hour
at most 23 and the minute at most 59.  The `datetime.time` result is
rendered as minutes after midnight (its comparisons below become the
minute/second comparisons of the source). -/
def parse_time_hhmm (s0 : List Char) : Option Nat :=
  match stripL s0 with
  | [a, ':', b, c] =>
    if isDigitCh a && isDigitCh b && isDigitCh c then
      if digitVal a ≤ 23 ∧ digitVal b * 10 + digitVal c ≤ 59 then
        some (digitVal a * 60 + (digitVal b * 10 + digitVal c))
      else none
    else none
  | [a, a2, ':', b, c] =>
    if isDigitCh a && isDigitCh a2 && isDigitCh b && isDigitCh c then
      if digitVal a * 10 + digitVal a2 ≤ 23 ∧ digitVal b * 10 + digitVal c ≤ 59 then
        some ((digitVal a * 10 + digitVal a2) * 60 + (digitVal b * 10 + digitVal c))
      else none
    else none
  | _ => none

/-- `is_within_work_hours`, with the current time of day given as seconds
after midnight.  A `datetime.time` with seconds compares to a whole-minute
bound exactly as the second counts compare, which is how the source's
`st <= now <= en` (or the overnight variant) is rendered. -/
def is_within_work_hours (stf : SettingsFn) (nowSec : Nat) : Bool :=
  match parse_time_hhmm (get_setting stf ("work_start_hhmm".toList) ("09:00".toList)),
        parse_time_hhmm (get_setting stf ("work_end_hhmm".toList) ("18:00".toList)) with
  | some st, some en =>
    if st ≤ en then decide (st * 60 ≤ nowSec ∧ nowSec ≤ en * 60)
    else decide (st * 60 ≤ nowSec) || decide (nowSec ≤ en * 60)
  | _, _ => true

def greetingsList : List (List Char) :=
  ["привет".toList, "здравствуйте".toList, "добрый".toList, "доброго".toList,
    "доброе".toList, "хай".toList, "hello".toList, "спасибо".toList,
    "благодарю".toList]

def is_greeting (q : List Char) : Bool :=
  greetingsList.any (fun g => listHasSub g (normalize_text q))

/-
`re.findall(r"\b(\d{1,N})\b", qn)` on normalised text: the characters of
`qn` are canonical letters, digits and single spaces, and `\b` demands a
non-word neighbour, so the matches are exactly the space-delimited words
that consist purely of digits and have length 1..N (a digit run inside a
longer word has a letter or digit neighbour and never matches).
-/
def digitWords (qn : List Char) (maxLen : Nat) : List (List Char) :=
  (splitOnSpace qn).filter
    (fun w => !w.isEmpty && decide (w.length ≤ maxLen) && w.all isDigitCh)

/-- `extract_requested_qty`: first 1-4-digit standalone number of the
normalised text, positive. -/
def extract_requested_qty (q : List Char) : Option Nat :=
  match digitWords (normalize_text q) 4 with
  | [] => none
  | w :: _ => if digitsToNat w ≤ 0 then none else some (digitsToNat w)

/-- The bot intents (the source uses string labels "qty", "in_stock", ...). -/
inductive Intent where
  | qty
  | in_stock
  | price
  | delivery
  | policy
  | need_qty
  | general
deriving DecidableEq

def containsAny (qn : List Char) (ws : List (List Char)) : Bool :=
  ws.any (fun w => listHasSub w qn)

/-- `detect_intent`: ordered keyword matching over the normalised text, with
the `need_qty` fallback requiring both a parsed positive quantity and an
intent-to-acquire keyword. -/
def detect_intent (q : List Char) : Intent :=
  let qn := normalize_text q
  if containsAny qn ["сколько".toList, "количество".toList, "ск-ко".toList] then .qty
  else if containsAny qn ["есть".toList, "налич".toList, "в наличии".toList,
      "есть ли".toList] then .in_stock
  else if containsAny qn ["цена".toList, "сто".toList, "сколько стоит".toList,
      "почем".toList] then .price
  else if containsAny qn ["доставка".toList, "когда придет".toList,
      "когда будет".toList, "привез".toList, "срок".toList, "приход".toList] then .delivery
  else if containsAny qn ["гарант".toList, "возврат".toList, "обмен".toList,
      "брак".toList, "не работает".toList, "полом".toList] then .policy
  else if (extract_requested_qty q).isSome && containsAny qn ["надо".toList,
      "нужно".toList, "хочу".toList, "возьму".toList, "беру".toList,
      "закажу".toList, "заказать".toList, "куплю".toList, "купить".toList] then .need_qty
  else .general

/-- A product row as returned by `core_db.search_products` (the integer
columns are NOT NULL with default 0; `price` REAL is nullable and is
modelled as an exact decimal, which CPython's float repr round-trips for
the 2-decimal price strings this code formats). -/
structure Row where
  sku : List Char := []
  name : List Char := []
  qty : Int := 0
  safety_stock : Int := 0
  in_transit : Int := 0
  lead_time_days : Int := 0
  price : Option Rat := none
  status : List Char := []
deriving DecidableEq

/-- `Decimal.quantize(Decimal("0.01"), rounding=ROUND_HALF_UP)` expressed as
the integer number of hundredths (half away from zero, as ROUND_HALF_UP
rounds negative values too). -/
def roundHalfUp2 (p : Rat) : Int :=
  if 0 ≤ p then (p * 100 + 1 / 2).floor else -((-(p * 100) + 1 / 2).floor)

def twoDigits (k : Nat) : List Char :=
  if k < 10 then '0' :: Nat.toDigits 10 k else Nat.toDigits 10 k

/-- `format_uah`: "нет" for a missing price; otherwise the price rounded to
hundredths, printed without decimals when integral and with a comma and two
decimals otherwise, suffixed " гр.".  (The source's fallback of returning
`str(price)` for a non-numeric price string cannot arise for the numeric
prices modelled here.) -/
def format_uah (price : Option Rat) : List Char :=
  match price with
  | none => "нет".toList
  | some p =>
    if (roundHalfUp2 p) % 100 = 0 then
      intStr ((roundHalfUp2 p) / 100) ++ " гр.".toList
    else
      (if roundHalfUp2 p < 0 then ['-'] else []) ++
        Nat.toDigits 10 ((roundHalfUp2 p).natAbs / 100) ++
        ',' :: twoDigits ((roundHalfUp2 p).natAbs % 100) ++ " гр.".toList

def product_line (r : Row) : List Char :=
  r.name ++ " - ".toList ++ format_uah r.price

/-- `qty_to_public`: "0" for non-positive counts, the exact count up to 10,
the literal "Больше 10" above. -/
def qty_to_public (q : Int) : List Char :=
  if q ≤ 0 then "0".toList
  else if q ≤ 10 then intStr q
  else "Больше 10".toList

/-- The `seen`-set dedup loop of `semantic_expand_queries` (empty strings
dropped, first occurrences kept). -/
def dedupStrs : List (List Char) → List (List Char) → List (List Char)
  | [], _ => []
  | x :: rest, seen =>
    if x = [] then dedupStrs rest seen
    else if seen.contains x then dedupStrs rest seen
    else x :: dedupStrs rest (x :: seen)

/-- `semantic_expand_queries`: the long tokens joined, up to 5 long tokens,
up to 3 standalone numbers (1-6 digits), deduplicated, first 8. -/
def semantic_expand_queries (q : List Char) : List (List Char) :=
  let toks := (tokenize q).filter (fun t => decide (3 ≤ t.length))
  (dedupStrs ((if toks ≠ [] then joinWords toks :: toks.take 5 else []) ++
    (digitWords (normalize_text q) 6).take 3) []).take 8

/-- Python `"\n".join` and friends. -/
def joinWith (sep : Char) : List (List Char) → List Char
  | [] => []
  | [w] => w
  | w :: ws => w ++ sep :: joinWith sep ws

/-- `build_ticket_summary`. -/
def build_ticket_summary (platform q : List Char) (found : List Row)
    (bot_text : List Char) : List Char :=
  joinWith '\n' (
    ("Help,".toList ++ platform ++ ", вопрос клиента: ".toList ++ q) ::
    ((if found ≠ [] then
        "Найдено в базе:".toList ::
          (found.take 5).map (fun r =>
            "- ".toList ++ product_line r ++ "; остаток ".toList ++ intStr r.qty ++
              "; в пути ".toList ++ intStr r.in_transit ++ "; lead ".toList ++
              intStr r.lead_time_days)
      else ["В базе не найдено совпадений.".toList]) ++
      [("Ответ бота клиенту: ".toList ++ bot_text),
        "Поставьте + если берете в работу.".toList]))

/-- `build_admin_large_order` (the `now_ts()` wall-clock string arrives as
the `nowStr` argument). -/
def build_admin_large_order (platform q : List Char) (found : Option Row)
    (requested : Nat) (nowStr : List Char) : List Char :=
  "Info,".toList ++ platform ++ ", крупный запрос.\nКлиент хочет: ".toList ++
    intStr (requested : Int) ++ " шт.\nЗапрос: ".toList ++ q ++
    "\nПозиция: ".toList ++
    (match found with
     | some r => product_line r
     | none => "Товар не определен".toList) ++
    "\nВремя: ".toList ++ nowStr

/-- The `BotDecision` dataclass. -/
structure BotDecision where
  reply_text : List Char := []
  ticket_needed : Bool := false
  ticket_summary : List Char := []
  notify_main : Bool := false
  main_message : List Char := []
  notify_admin : Bool := false
  admin_message : List Char := []
deriving DecidableEq

/-- The per-row score of `best_match_from_rows`: +60 for the whole query as
a substring of the name, +12 per distinct shared token, +4 per query token
occurring anywhere in the normalised name (with multiplicity). -/
def score_row (qn : List Char) (qt : List (List Char)) (r : Row) : Nat :=
  (if !qn.isEmpty && listHasSub qn (normalize_text r.name) then 60 else 0) +
    ((qt.eraseDups).filter (fun t => (tokenize r.name).contains t)).length * 12 +
    (qt.filter (fun t => listHasSub t (normalize_text r.name))).length * 4

/-- Stable descending insertion (equal scores keep their original order),
matching Python's stable `sort(key=..., reverse=True)`. -/
def insDesc (p : Nat × Row) : List (Nat × Row) → List (Nat × Row)
  | [] => [p]
  | q :: rest => if p.1 ≤ q.1 then q :: insDesc p rest else p :: q :: rest

def sortScoredDesc (l : List (Nat × Row)) : List (Nat × Row) :=
  l.foldl (fun acc p => insDesc p acc) []

/-- `best_match_from_rows`: score every row, sort stably by descending
score, return the top row and the first five. -/
def best_match_from_rows (q : List Char) (rows : List Row) : Option Row × List Row :=
  match rows with
  | [] => (none, [])
  | r0 :: _ =>
    if tokenize q = [] then (some r0, rows.take 5)
    else
      match sortScoredDesc (rows.map
          (fun r => (score_row (normalize_text q) (tokenize q) r, r))) with
      | [] => (none, [])
      | sbest :: stl => (some sbest.2, ((sbest :: stl).take 5).map Prod.snd)

/-- `core_db.search_products` as an interface: query, `everywhere` flag,
limit. -/
def SearchFn : Type := List Char → Bool → Nat → List Row

/-- The `for qq in semantic_expand_queries(q)` retry loop. -/
def expand_search (sp : SearchFn) : List (List Char) → List Row
  | [] => []
  | qq :: rest =>
    if sp qq true 30 ≠ [] then sp qq true 30 else expand_search sp rest

/-- The row-fetch cascade of `handle_customer_message`: name-restricted
search, then everywhere, then the expanded sub-queries. -/
def fetch_rows (sp : SearchFn) (q : List Char) : List Row :=
  if sp q false 30 ≠ [] then sp q false 30
  else if sp q true 30 ≠ [] then sp q true 30
  else expand_search sp (semantic_expand_queries q)

def cannotAnswerText : List Char :=
  "Я бот программы автоответов. К сожалению, не могу дать ответ на ваш вопрос. Я уже отправил ваш вопрос оператору, он ответит в рабочее время.".toList

/-- The canned "forwarded to operator" escalation decision. -/
def cannotDecision (platform q : List Char) : BotDecision :=
  { reply_text := cannotAnswerText, ticket_needed := true,
    ticket_summary := build_ticket_summary platform q [] cannotAnswerText }

/-- Python `int(...)` on a stripped decimal string. -/
def pyIntParse (s0 : List Char) : Option Int :=
  match stripL s0 with
  | [] => none
  | '-' :: ds =>
    if !ds.isEmpty && ds.all isDigitCh then some (-(digitsToNat ds : Int)) else none
  | '+' :: ds =>
    if !ds.isEmpty && ds.all isDigitCh then some ((digitsToNat ds : Int)) else none
  | ds => if ds.all isDigitCh then some ((digitsToNat ds : Int)) else none

/-- `int(get_setting("large_order_qty", "10") or "10")`.  A stored value
that is non-empty but non-numeric raises ValueError in the source (caught
by the transport loop's per-update handler); no claim exercises that path,
and it is rendered as 0 here. -/
def pyIntOr10 (s : List Char) : Int :=
  (pyIntParse (if s = [] then "10".toList else s)).getD 0

/-- The numbered disambiguation options `f"{i}. {product_line(r)}"`. -/
def optLines : Nat → List Row → List (List Char)
  | _, [] => []
  | i, r :: rest => (intStr (i : Int) ++ ". ".toList ++ product_line r) :: optLines (i + 1) rest

/-- `handle_customer_message`: the per-message decision builder.  The
external collaborators arrive as arguments: `sp` (product search), `stf`
(settings), `nowSec` (current time of day for the working-hours check),
`nowStr` (the `now_ts()` wall-clock string used in the admin notice); the
logger carries no data and is dropped. -/
def handle_customer_message (sp : SearchFn) (stf : SettingsFn) (nowSec : Nat)
    (nowStr : List Char) (platform customer_text mode : List Char) : BotDecision :=
  let q := stripL customer_text
  if q = [] then {}
  else
    let m := lowerL (stripL (if mode = [] then "ai".toList else mode))
    if is_greeting q then
      { reply_text := "Здравствуйте. Напишите название товара или модель. Я подскажу цену и наличие.".toList }
    else if m = "operator".toList then cannotDecision platform q
    else
      let within := is_within_work_hours stf nowSec
      let intent := detect_intent q
      let requested_qty : Option Nat :=
        if intent = Intent.need_qty then extract_requested_qty q else none
      let rows := fetch_rows sp q
      if rows = [] then cannotDecision platform q
      else
        match best_match_from_rows q rows with
        | (none, _) => cannotDecision platform q
        | (some best, top) =>
          if 2 ≤ top.length ∧ ((normalize_text q).length ≤ 4 ∨
              intent = Intent.general ∨ intent = Intent.policy) then
            { reply_text := "Уточните, какой вариант нужен. Ответьте номером из списка.\n".toList ++
                joinWith '\n' (optLines 1 (top.take 5)),
              notify_main := true,
              main_message := build_ticket_summary platform q (top.take 5)
                ("Уточните, какой вариант нужен. Ответьте номером из списка.\n".toList ++
                  joinWith '\n' (optLines 1 (top.take 5))) }
          else if intent = Intent.policy ∧ within = false then
            { reply_text := "Я бот программы автоответов. Я передал ваш вопрос оператору, он ответит в рабочее время.".toList,
              ticket_needed := true,
              ticket_summary := build_ticket_summary platform q [best]
                "Я бот программы автоответов. Я передал ваш вопрос оператору, он ответит в рабочее время.".toList }
          else
            let txt :=
              match intent with
              | Intent.price => product_line best
              | Intent.in_stock => if 0 < best.qty then "Да".toList else "Нет".toList
              | Intent.qty => qty_to_public best.qty
              | Intent.need_qty =>
                if 0 < ((requested_qty.getD 0 : Nat) : Int) ∧
                    ((requested_qty.getD 0 : Nat) : Int) ≤ best.qty then
                  "Да, такое количество есть".toList
                else if 0 < ((requested_qty.getD 0 : Nat) : Int) ∧
                    best.qty < ((requested_qty.getD 0 : Nat) : Int) then
                  "К сожалению, такого количества нет. В наличии ".toList ++
                    qty_to_public best.qty ++ ".".toList
                else product_line best
              | Intent.delivery =>
                if 0 < best.qty then "Есть в наличии".toList
                else if 0 < best.in_transit ∧ 0 < best.lead_time_days then
                  "Сейчас товара нет. Ориентировочно следующий приход через ".toList ++
                    intStr best.lead_time_days ++ ',' :: intStr (best.lead_time_days + 3) ++
                    " дней. Напишите, я сообщу, когда появится.".toList
                else
                  "Извините, товара нет в наличии. К сожалению, сейчас не могу сказать, будет ли он еще.".toList
              | Intent.policy => product_line best
              | Intent.general => product_line best
            if intent = Intent.need_qty then
              match requested_qty with
              | some rq =>
                if pyIntOr10 (get_setting stf ("large_order_qty".toList) ("10".toList)) ≤ (rq : Int) then
                  { reply_text := txt, notify_admin := true,
                    admin_message := build_admin_large_order platform q (some best) rq nowStr }
                else { reply_text := txt }
              | none => { reply_text := txt }
            else { reply_text := txt }

-- ## Claim theorems for the decision builder (C9, C10)

/-- C9 (amended).  For a qty-intent message with a matched product (and no
disambiguation), the reply is `qty_to_public` of the on-hand count: the
exact count when it is between 0 and 10, the literal "Больше 10" when it
exceeds 10, and the string "0" when the count is negative (negative counts,
which the data model allows through adjustments, are clamped - the exact
negative count is never revealed). -/
theorem C9_qty_reply (sp : SearchFn) (stf : SettingsFn) (nowSec : Nat) (nowStr : List Char)
    (platform text : List Char) (best : Row) (top : List Row)
    (hqne : ¬stripL text = [])
    (hgr : is_greeting (stripL text) = false)
    (hint : detect_intent (stripL text) = Intent.qty)
    (hbm : best_match_from_rows (stripL text) (fetch_rows sp (stripL text)) = (some best, top))
    (hdis : ¬(2 ≤ top.length ∧ (normalize_text (stripL text)).length ≤ 4)) :
    (handle_customer_message sp stf nowSec nowStr platform text ("ai".toList)).reply_text =
      qty_to_public best.qty ∧
    (0 ≤ best.qty → best.qty ≤ 10 →
      (handle_customer_message sp stf nowSec nowStr platform text ("ai".toList)).reply_text =
        intStr best.qty) ∧
    (10 < best.qty →
      (handle_customer_message sp stf nowSec nowStr platform text ("ai".toList)).reply_text =
        "Больше 10".toList) ∧
    (best.qty < 0 →
      (handle_customer_message sp stf nowSec nowStr platform text ("ai".toList)).reply_text =
        "0".toList) := by
  have hrows : ¬fetch_rows sp (stripL text) = [] := by
    intro h
    rw [h] at hbm
    simp [best_match_from_rows] at hbm
  have hop : ¬(lowerL (stripL (if ("ai".toList : List Char) = [] then "ai".toList
      else "ai".toList)) = "operator".toList) := by decide
  have hmain : (handle_customer_message sp stf nowSec nowStr platform text
      ("ai".toList)).reply_text = qty_to_public best.qty := by
    simp only [handle_customer_message]
    rw [if_neg hqne, if_neg (by rw [hgr]; exact Bool.false_ne_true), if_neg hop,
      if_neg hrows, hbm]
    simp only [hint]
    rw [if_neg (by
      rintro ⟨h1, h2 | h2 | h2⟩
      · exact hdis ⟨h1, h2⟩
      · cases h2
      · cases h2)]
    rw [if_neg (by rintro ⟨h1, _⟩; cases h1)]
    rw [if_neg (by intro h; cases h)]
  refine ⟨hmain, ?_, ?_, ?_⟩
  · intro h1 h2
    rw [hmain]
    unfold qty_to_public
    by_cases h0 : best.qty ≤ 0
    · have hz : best.qty = 0 := by omega
      rw [if_pos h0, hz]
      decide
    · rw [if_neg h0, if_pos h2]
  · intro h
    rw [hmain]
    unfold qty_to_public
    rw [if_neg (by omega), if_neg (by omega)]
  · intro h
    rw [hmain]
    unfold qty_to_public
    rw [if_pos (by omega)]

/-- C9, counterexample to the claim as stated: a matched product with
on-hand count -3 (which is ≤ 10) yields the reply "0", not the exact count
"-3". -/
theorem C9_counterexample :
    detect_intent ("сколько насос".toList) = Intent.qty ∧
    (handle_customer_message
      (fun _ _ _ => [{ name := "насос".toList, qty := -3 : Row }])
      (fun _ => none) 36000 [] ("telegram".toList) ("сколько насос".toList)
      ("ai".toList)).reply_text = "0".toList ∧
    ((-3 : Int) ≤ 10 ∧ intStr (-3) ≠ "0".toList) := by
  decide

/-- C9 witness: a qty-intent message about a product with 7 on hand is
answered with the exact count. -/
theorem C9_qty_reply_witness :
    (handle_customer_message
      (fun _ _ _ => [{ name := "насос".toList, qty := 7 : Row }])
      (fun _ => none) 36000 [] ("telegram".toList) ("сколько насос".toList)
      ("ai".toList)).reply_text =
      qty_to_public ({ name := "насос".toList, qty := 7 : Row } : Row).qty :=
  (C9_qty_reply (fun _ _ _ => [{ name := "насос".toList, qty := 7 : Row }])
    (fun _ => none) 36000 [] ("telegram".toList) ("сколько насос".toList)
    ({ name := "насос".toList, qty := 7 : Row }) [{ name := "насос".toList, qty := 7 : Row }]
    (by decide) (by decide) (by decide) (by decide) (by decide)).1

/-- C10 (amended).  When either configured working-hours value fails to
parse as HH:MM, the working-hours check returns true, and a policy-intent
message (matched uniquely) is answered with the product template, never the
outside-working-hours escalation.  Missing settings, however, fall back to
the defaults "09:00"/"18:00", which do parse, so a missing value does not
force the check to true (see the counterexample). -/
theorem C10_work_hours (sp : SearchFn) (stf : SettingsFn) (nowSec : Nat) (nowStr : List Char)
    (platform text : List Char) (best : Row) (top : List Row)
    (hpar : parse_time_hhmm (get_setting stf ("work_start_hhmm".toList) ("09:00".toList)) = none ∨
      parse_time_hhmm (get_setting stf ("work_end_hhmm".toList) ("18:00".toList)) = none)
    (hqne : ¬stripL text = [])
    (hgr : is_greeting (stripL text) = false)
    (hint : detect_intent (stripL text) = Intent.policy)
    (hbm : best_match_from_rows (stripL text) (fetch_rows sp (stripL text)) = (some best, top))
    (hdis : top.length < 2) :
    is_within_work_hours stf nowSec = true ∧
    (handle_customer_message sp stf nowSec nowStr platform text ("ai".toList)).ticket_needed =
      false ∧
    (handle_customer_message sp stf nowSec nowStr platform text ("ai".toList)).reply_text =
      product_line best := by
  have hwithin : is_within_work_hours stf nowSec = true := by
    unfold is_within_work_hours
    rcases hpar with h | h
    · rw [h]
    · rw [h]
      cases parse_time_hhmm (get_setting stf ("work_start_hhmm".toList) ("09:00".toList)) <;>
        rfl
  have hrows : ¬fetch_rows sp (stripL text) = [] := by
    intro h
    rw [h] at hbm
    simp [best_match_from_rows] at hbm
  have hop : ¬(lowerL (stripL (if ("ai".toList : List Char) = [] then "ai".toList
      else "ai".toList)) = "operator".toList) := by decide
  have hred : handle_customer_message sp stf nowSec nowStr platform text ("ai".toList) =
      { reply_text := product_line best } := by
    simp only [handle_customer_message]
    rw [if_neg hqne, if_neg (by rw [hgr]; exact Bool.false_ne_true), if_neg hop,
      if_neg hrows, hbm]
    simp only [hint]
    rw [if_neg (by rintro ⟨h1, _⟩; omega)]
    rw [if_neg (by rintro ⟨_, hw⟩; rw [hwithin] at hw; cases hw)]
    rw [if_neg (by intro h; cases h)]
  exact ⟨hwithin, by rw [hred], by rw [hred]⟩

/-- C10, counterexample to the claim as stated: with both working-hours
settings missing, the defaults 09:00-18:00 apply and at 03:00 the check
returns false, and the policy-intent message does take the
outside-working-hours escalation branch. -/
theorem C10_counterexample :
    is_within_work_hours (fun _ => none) 10800 = false ∧
    (handle_customer_message
      (fun _ _ _ => [{ name := "насос".toList, qty := 3 : Row }])
      (fun _ => none) 10800 [] ("telegram".toList) ("гарант насос".toList)
      ("ai".toList)).ticket_needed = true := by
  decide

/-- C10 witness: an unparseable start-of-work setting forces the check to
true, and the policy question is answered with the product template. -/
theorem C10_work_hours_witness :
    is_within_work_hours
      (fun k => if k = ("work_start_hhmm".toList) then some ("abc".toList) else none)
      10800 = true ∧
    (handle_customer_message
      (fun _ _ _ => [{ name := "насос".toList, qty := 3 : Row }])
      (fun k => if k = ("work_start_hhmm".toList) then some ("abc".toList) else none)
      10800 [] ("telegram".toList) ("гарант насос".toList)
      ("ai".toList)).reply_text =
      product_line ({ name := "насос".toList, qty := 3 : Row }) :=
  ⟨(C10_work_hours
      (fun _ _ _ => [{ name := "насос".toList, qty := 3 : Row }])
      (fun k => if k = ("work_start_hhmm".toList) then some ("abc".toList) else none)
      10800 [] ("telegram".toList) ("гарант насос".toList)
      ({ name := "насос".toList, qty := 3 : Row })
      [{ name := "насос".toList, qty := 3 : Row }]
      (Or.inl (by decide)) (by decide) (by decide) (by decide) (by decide) (by decide)).1,
    (C10_work_hours
      (fun _ _ _ => [{ name := "насос".toList, qty := 3 : Row }])
      (fun k => if k = ("work_start_hhmm".toList) then some ("abc".toList) else none)
      10800 [] ("telegram".toList) ("гарант насос".toList)
      ({ name := "насос".toList, qty := 3 : Row })
      [{ name := "насос".toList, qty := 3 : Row }]
      (Or.inl (by decide)) (by decide) (by decide) (by decide) (by decide) (by decide)).2.2⟩

end Bot
